import Mathlib

/-!
# gsnova `proxy/spac.go`: rule matcher, proxy selection, list translation, rule loading

A shallow embedding of `src/proxy/spac.go`.

Conventions of the embedding

* A Go `string` is a Lean `String`, read as its list of Unicode characters
  (`String.data`); the contents are taken to be valid UTF-8 text.
* Everything `spac.go` uses but does not define (other files of package
  `proxy`, packages `util` and `common`, and the library functions
  `strings.EqualFold`, `net.SplitHostPort`, `net.JoinHostPort`) is a field of
  the record `Env`; the theorems hold for every `Env`.
* Package-level variables (`spac`) are passed explicitly.
* Calls with an effect on the outside world (`handleSelfHttpRequest`,
  `redirectHttps`, the host lookup) are recorded, in call order, in a list of
  `Effect`s returned next to the Go result.  `log.Printf` calls are left out.
* A Go `nil` slice or map returned by an early `return nil, nil` is `none`.
* The file system and the clock are inputs: `loadSpacScript` takes what reading
  and decoding each rule file gave, a tick of `reloadSpacScript` takes the results
  of `os.Stat`, `generatePAC` takes the content of the user list.
-/

namespace Spac

/-! ## Data model -/

/-- Compiled pattern, Go `*regexp.Regexp`.  `spac.go` only ever calls
`MatchString` on it. -/
structure Regexp where
  MatchString : String → Bool

/-- The part of `*http.Request` that `spac.go` reads. -/
structure Request where
  Method : String
  Host : String
  RequestURI : String
deriving DecidableEq, Repr

/-- Go `type JsonRule struct` (spac.go:25). -/
structure JsonRule where
  Method : List String
  Host : List String
  URL : List String
  Proxy : List String
  Filter : List String
  Protocol : String
  Attr : List String
  method_regex : List Regexp
  host_regex : List Regexp
  url_regex : List Regexp

/-- Go `type SpacConfig struct` (spac.go:162). -/
structure SpacConfig where
  defaultRule : String
  rules : List JsonRule

/-- Go `type Forward struct`: the fields `SelectProxy` sets. -/
structure Forward where
  overProxy : Bool
  target : String
deriving DecidableEq, Repr

/-- A value of the interface `RemoteConnectionManager`: either a `*Forward`
built by `SelectProxy`, or some other implementation, identified by a tag. -/
inductive RemoteConnectionManager where
  | forward (f : Forward)
  | manager (tag : String)
deriving DecidableEq, Repr

/-- Modelled from the spec: the type of `conn.ProxyServerType` and its constants
`GAE_PROXY_SERVER`, `C4_PROXY_SERVER`, `SSH_PROXY_SERVER` are declared outside
spac.go ("a transport-specific listener (tunnel-type A, B, or C)"); the
constants are distinct, being the cases of one Go `switch`. -/
inductive ProxyServerType where
  | GAE_PROXY_SERVER
  | C4_PROXY_SERVER
  | SSH_PROXY_SERVER
  | other (code : Nat)
deriving DecidableEq, Repr

/-- The part of `*SessionConnection` that `SelectProxy` reads (`Type_` is the Go
field `Type`).  `LocalRawConn` is only handed on to the effectful helpers and is
not represented. -/
structure SessionConnection where
  Type_ : Nat
  ProxyServerType : ProxyServerType
deriving DecidableEq, Repr

/-- Go `map[string]string` as an association list; `AttrMap.set` keeps keys
unique, `List.lookup` reads a key. -/
abbrev AttrMap := List (String × String)

/-- Go `m[k] = v`. -/
def AttrMap.set (m : AttrMap) (k v : String) : AttrMap :=
  (k, v) :: m.filter (fun p => !(p.1 == k))

/-- Calls that act on the outside world, in call order. -/
inductive Effect where
  | lookupAvailableHostPort (req : Request) (hostport : String)
  | handleSelfHttpRequest (req : Request)
  | redirectHttps (req : Request)
deriving DecidableEq, Repr

/-- Everything spac.go reads that is declared elsewhere. -/
structure Env where
  /-- Go `strings.EqualFold`. -/
  EqualFold : String → String → Bool
  /-- Go `net.SplitHostPort`; `none` is a non-nil error. -/
  SplitHostPort : String → Option (String × String)
  /-- Go `net.JoinHostPort`. -/
  JoinHostPort : String → String → String
  /-- Package proxy, `invokeFilter(filter, req)`. -/
  invokeFilter : String → Request → Bool
  /-- Package proxy, variable `hostsEnable`. -/
  hostsEnable : Nat
  /-- Package proxy, constant `HOSTS_DISABLE`. -/
  HOSTS_DISABLE : Nat
  /-- Package proxy, `lookupAvailableHostPort(req, hostport)`: value and `exist`. -/
  lookupAvailableHostPort : Request → String → String × Bool
  /-- Package util, `util.IsPrivateIP`. -/
  IsPrivateIP : String → Bool
  /-- Package util, `util.IsSelfIP`. -/
  IsSelfIP : String → Bool
  /-- Package util, `util.PrepareRegexp(rule, true)`; `Except.error` is a
  non-nil error. -/
  PrepareRegexp : String → Bool → Except String Regexp
  /-- Package common, `common.ProxyPort`. -/
  ProxyPort : String
  GAE_NAME : String
  C4_NAME : String
  SSH_NAME : String
  GOOGLE_NAME : String
  GOOGLE_HTTP_NAME : String
  GOOGLE_HTTPS_NAME : String
  DIRECT_NAME : String
  DEFAULT_NAME : String
  AUTO_NAME : String
  ATTR_REDIRECT_HTTPS : String
  /-- Package proxy, constant `HTTPS_TUNNEL` (a value of `conn.Type`). -/
  HTTPS_TUNNEL : Nat
  /-- Package proxy, variable `google_enable`. -/
  google_enable : Bool
  httpGoogleManager : RemoteConnectionManager
  httpsGoogleManager : RemoteConnectionManager
  /-- Package-level map `registedRemoteConnManager` (spac.go:169): `v, ok := m[name]`. -/
  registedRemoteConnManager : String → Option RemoteConnectionManager

/-! ## Go `strings` helpers used by spac.go -/

/-- Go `strings.HasPrefix`. -/
def HasPrefix (s pre : String) : Bool := pre.data.isPrefixOf s.data

/-- Go `strings.HasSuffix`. -/
def HasSuffix (s suf : String) : Bool := suf.data.reverse.isPrefixOf s.data.reverse

/-- Does `sub` occur in `s` (on character lists). -/
def containsChars : List Char → List Char → Bool
  | [], sub => sub.isEmpty
  | c :: cs, sub => sub.isPrefixOf (c :: cs) || containsChars cs sub

/-- Go `strings.Contains`. -/
def Contains (s sub : String) : Bool := containsChars s.data sub.data

/-- Go `unicode.IsSpace`. -/
def isSpace (c : Char) : Bool :=
  let n := c.toNat
  n == 0x09 || n == 0x0A || n == 0x0B || n == 0x0C || n == 0x0D || n == 0x20
    || n == 0x85 || n == 0xA0 || n == 0x1680 || (0x2000 ≤ n && n ≤ 0x200A)
    || n == 0x2028 || n == 0x2029 || n == 0x202F || n == 0x205F || n == 0x3000

/-- Go `strings.TrimSpace` on a character list. -/
def trimSpaceChars (s : List Char) : List Char :=
  ((s.dropWhile isSpace).reverse.dropWhile isSpace).reverse

/-- Go `strings.TrimSpace`. -/
def TrimSpace (s : String) : String := ⟨trimSpaceChars s.data⟩

/-! ## The matcher (spac.go:94-160) -/

/-- Go `matchRegexs` (spac.go:94). -/
def matchRegexs (str : String) (rules : List Regexp) : Bool :=
  if rules.length == 0 then true
  else rules.any (fun regex => regex.MatchString str)

/-- Go `initRegexSlice` (spac.go:107): the first pattern that fails to compile
aborts with its error. -/
def initRegexSlice (E : Env) : List String → Except String (List Regexp)
  | [] => .ok []
  | originrule :: rest =>
    match E.PrepareRegexp originrule true with
    | .error err => .error err
    | .ok reg =>
      match initRegexSlice E rest with
      | .error err => .error err
      | .ok regexs => .ok (reg :: regexs)

/-- Go `(*JsonRule).init` (spac.go:122).  Go assigns each field before testing
the error; a failed rule is never used afterwards, so only the error is kept. -/
def JsonRule.init (E : Env) (r : JsonRule) : Except String JsonRule :=
  match initRegexSlice E r.Method with
  | .error err => .error err
  | .ok m =>
    match initRegexSlice E r.Host with
    | .error err => .error err
    | .ok h =>
      match initRegexSlice E r.URL with
      | .error err => .error err
      | .ok u => .ok { r with method_regex := m, host_regex := h, url_regex := u }

/-- Go `(*JsonRule).matchProtocol` (spac.go:136). -/
def JsonRule.matchProtocol (E : Env) (r : JsonRule) (req : Request) (isHttpsConn : Bool) : Bool :=
  if r.Protocol.length > 0 then
    let protocol := if E.EqualFold req.Method "Connect" || isHttpsConn then "https" else "http"
    E.EqualFold r.Protocol protocol
  else true

/-- The loop of `matchFilters`: `matched` stays true until a filter fails. -/
def matchFiltersLoop (E : Env) (req : Request) : List String → Bool
  | [] => true
  | filter :: rest => if E.invokeFilter filter req then matchFiltersLoop E req rest else false

/-- Go `(*JsonRule).matchFilters` (spac.go:147). -/
def JsonRule.matchFilters (E : Env) (r : JsonRule) (req : Request) : Bool :=
  matchFiltersLoop E req r.Filter

/-- Go `(*JsonRule).match` (spac.go:158). -/
def JsonRule.match (E : Env) (r : JsonRule) (req : Request) (isHttpsConn : Bool) : Bool :=
  r.matchFilters E req && r.matchProtocol E req isHttpsConn
    && matchRegexs req.Method r.method_regex
    && matchRegexs req.Host r.host_regex
    && matchRegexs req.RequestURI r.url_regex

/-! ## Proxy selection (spac.go:435-570) -/

/-- The attribute loop of `selectProxyByRequest`: `attrs[v] = v` for each tag. -/
def setAttrs (attrs : AttrMap) (tags : List String) : AttrMap :=
  tags.foldl (fun m v => m.set v v) attrs

/-- The rule loop of `selectProxyByRequest` (spac.go:437-444): the first
matching rule returns. -/
def selectFirstMatch (E : Env) (req : Request) (isHttpsConn : Bool) (attrs : AttrMap) :
    List JsonRule → Option (List String × AttrMap)
  | [] => none
  | r :: rest =>
    if r.match E req isHttpsConn then some (r.Proxy, setAttrs attrs r.Attr)
    else selectFirstMatch E req isHttpsConn attrs rest

/-- Go `selectProxyByRequest` (spac.go:435), with the host lookups it made. -/
def selectProxyByRequest (E : Env) (spac : SpacConfig) (req : Request) (host port : String)
    (isHttpsConn : Bool) (proxyNames : List String) : List String × AttrMap × List Effect :=
  let attrs : AttrMap := []
  match selectFirstMatch E req isHttpsConn attrs spac.rules with
  | some (names, attrs1) => (names, attrs1, [])
  | none =>
    if E.hostsEnable != E.HOSTS_DISABLE then
      let hostport := E.JoinHostPort host port
      let eff := [Effect.lookupAvailableHostPort req hostport]
      if (E.lookupAvailableHostPort req hostport).2 then
        let attrs2 := if !E.EqualFold req.Method "Connect" then attrs.set "CRLF" "CRLF" else attrs
        ([E.DIRECT_NAME, spac.defaultRule], attrs2, eff)
      else (proxyNames, attrs, eff)
    else (proxyNames, attrs, [])

/-- Go `adjustProxyName` (spac.go:459). -/
def adjustProxyName (E : Env) (name : String) (isHttpsConn : Bool) : String :=
  if E.EqualFold name E.GOOGLE_NAME then
    if isHttpsConn then E.GOOGLE_HTTPS_NAME else E.GOOGLE_HTTP_NAME
  else if E.EqualFold name E.GAE_NAME then E.GAE_NAME
  else if E.EqualFold name E.C4_NAME then E.C4_NAME
  else if E.EqualFold name E.SSH_NAME then E.SSH_NAME
  else if E.EqualFold name E.DIRECT_NAME then E.DIRECT_NAME
  else name

/-- Modelled from the spec: `containsAttr` is defined outside spac.go; the
attribute map has "set semantics: presence, not value, carries meaning", so the
test is key presence. -/
def containsAttr (attrs : AttrMap) (attr : String) : Bool :=
  (attrs.lookup attr).isSome

/-- The target of the handle built for `DIRECT_NAME` (spac.go:552-558), from
`req.Host`. -/
def directTarget (reqHost : String) : String :=
  let target := reqHost
  let target := if !Contains target ":" then target ++ ":80" else target
  let target := if !Contains target "://" then "http://" ++ target else target
  target

/-- One iteration of the resolution loop of `SelectProxy` (spac.go:530-567):
the managers appended for one candidate name. -/
def resolveProxyName (E : Env) (spac : SpacConfig) (req : Request) (isHttpsConn : Bool)
    (proxyName : String) : List RemoteConnectionManager :=
  let proxyName := if E.EqualFold proxyName E.DEFAULT_NAME then spac.defaultRule else proxyName
  let proxyName := adjustProxyName E proxyName isHttpsConn
  if proxyName == E.GAE_NAME || proxyName == E.C4_NAME || proxyName == E.SSH_NAME then
    match E.registedRemoteConnManager proxyName with
    | some v => [v]
    | none => []
  else if proxyName == E.GOOGLE_HTTP_NAME then
    if E.google_enable then [E.httpGoogleManager] else []
  else if proxyName == E.GOOGLE_HTTPS_NAME then
    if E.google_enable then [E.httpsGoogleManager] else []
  else if proxyName == E.DIRECT_NAME then
    [RemoteConnectionManager.forward { overProxy := false, target := directTarget req.Host }]
  else
    let target := TrimSpace proxyName
    let target := if !Contains target "://" then "http://" ++ target else target
    [RemoteConnectionManager.forward { overProxy := true, target := target }]

/-- The resolution loop of `SelectProxy` (spac.go:530-568). -/
def resolveProxyNames (E : Env) (spac : SpacConfig) (req : Request) (isHttpsConn : Bool)
    (proxyManagers : List RemoteConnectionManager) :
    List String → List RemoteConnectionManager
  | [] => proxyManagers
  | proxyName :: rest =>
    resolveProxyNames E spac req isHttpsConn
      (proxyManagers ++ resolveProxyName E spac req isHttpsConn proxyName) rest

/-- What `SelectProxy` returns: the two Go results (`none` for `nil`) and the
effects it had. -/
structure SelectResult where
  managers : Option (List RemoteConnectionManager)
  attrs : Option AttrMap
  effects : List Effect
deriving DecidableEq, Repr

/-- The `host` and `port` of `SelectProxy` (spac.go:484-489): `req.Host` split by
`net.SplitHostPort`, or `req.Host` and port `"80"` when that fails. -/
def hostPort (E : Env) (req : Request) : String × String :=
  match E.SplitHostPort req.Host with
  | some (v, p) => (v, p)
  | none => (req.Host, "80")

/-- Is the request directed at the proxy itself (spac.go:494-501): a private
host that is loopback or this machine, on the proxy's own port. -/
def isSelfRequest (E : Env) (host port : String) : Bool :=
  E.IsPrivateIP host
    && (host == "127.0.0.1" || E.IsSelfIP host || E.EqualFold host "localhost")
    && port == E.ProxyPort

/-- Go `SelectProxy` (spac.go:482). -/
def SelectProxy (E : Env) (spac : SpacConfig) (req : Request) (conn : SessionConnection) :
    SelectResult :=
  let isHttpsConn := conn.Type_ == E.HTTPS_TUNNEL
  let host := (hostPort E req).1
  let port := (hostPort E req).2
  let proxyNames := [spac.defaultRule]
  let attrs : AttrMap := []
  let need_select_proxy := true
  if isSelfRequest E host port then
    { managers := none, attrs := none, effects := [Effect.handleSelfHttpRequest req] }
  else
    let st : Bool × List String :=
      if E.IsPrivateIP host then (false, [E.DIRECT_NAME]) else (need_select_proxy, proxyNames)
    let st : Bool × List String :=
      match conn.ProxyServerType with
      | .GAE_PROXY_SERVER => (false, [E.GAE_NAME])
      | .C4_PROXY_SERVER => (false, [E.C4_NAME])
      | .SSH_PROXY_SERVER => (false, [E.SSH_NAME])
      | .other _ => st
    let need_select_proxy := st.1
    let sel : List String × AttrMap × List Effect :=
      if need_select_proxy then selectProxyByRequest E spac req host port isHttpsConn st.2
      else (st.2, attrs, [])
    let proxyNames := sel.1
    let attrs := sel.2.1
    if need_select_proxy && !isHttpsConn && containsAttr attrs E.ATTR_REDIRECT_HTTPS then
      { managers := none, attrs := none, effects := sel.2.2 ++ [Effect.redirectHttps req] }
    else
      { managers := some (resolveProxyNames E spac req isHttpsConn [] proxyNames),
        attrs := some attrs,
        effects := sel.2.2 }

/-! ## Regular expressions of `generatePAC`

`generatePAC` compiles nine fixed patterns with `regexp.Compile`.  They use
only: escaped characters, `\W`, `^`, `$`, a group around the whole consumed part,
and `+` after one escaped character.  The patterns are kept as the Go source
writes them and are compiled by `Compile` below. -/

/-- One element of a compiled pattern. -/
inductive Atom where
  /-- A literal character. -/
  | lit (c : Char)
  /-- The class `\W`: any character outside `[0-9A-Za-z_]`. -/
  | nonWord
  /-- One or more repetitions of a literal character, `c+` (greedy). -/
  | plus (c : Char)
  /-- The assertion `^`: beginning of the text (`regexp.Compile` does not set the
  multi-line flag). -/
  | bot
  /-- The assertion `$`: end of the text. -/
  | eot
deriving DecidableEq, Repr

/-- A compiled pattern: a sequence of atoms. -/
abbrev Pattern := List Atom

/-- Is `c` a word character of Go's `\w`, `[0-9A-Za-z_]`. -/
def isWordChar (c : Char) : Bool :=
  (48 ≤ c.toNat && c.toNat ≤ 57) || (65 ≤ c.toNat && c.toNat ≤ 90)
    || (97 ≤ c.toNat && c.toNat ≤ 122) || c.toNat == 95

/-- Parser for the pattern syntax used by `generatePAC`; `none` outside that
fragment.  A backslash before a non-word character makes it literal, `\W` is the
class, parentheses only group. -/
def compileAtoms : List Char → Option Pattern
  | [] => some []
  | '\\' :: 'W' :: rest => (compileAtoms rest).map (fun p => Atom.nonWord :: p)
  | '\\' :: c :: '+' :: rest =>
    if isWordChar c then none else (compileAtoms rest).map (fun p => Atom.plus c :: p)
  | '\\' :: c :: rest =>
    if isWordChar c then none else (compileAtoms rest).map (fun p => Atom.lit c :: p)
  | '^' :: rest => (compileAtoms rest).map (fun p => Atom.bot :: p)
  | '$' :: rest => (compileAtoms rest).map (fun p => Atom.eot :: p)
  | '(' :: rest => compileAtoms rest
  | ')' :: rest => compileAtoms rest
  | c :: rest => if isWordChar c then (compileAtoms rest).map (fun p => Atom.lit c :: p) else none

/-- Go `regexp.Compile`, on the fragment above. -/
def Compile (expr : String) : Option Pattern := compileAtoms expr.data

/-- Match a pattern at the current position.  `atStart` tells whether the
position is the beginning of the text.  Returns the matched text and what
follows it.  A `plus` takes the longest run; in `generatePAC` nothing follows a
`plus`, so no backtracking is needed. -/
def matchHere : Pattern → Bool → List Char → Option (List Char × List Char)
  | [], _, s => some ([], s)
  | Atom.lit c :: p, _, s =>
    match s with
    | x :: xs =>
      if x == c then (matchHere p false xs).map (fun r => (x :: r.1, r.2)) else none
    | [] => none
  | Atom.nonWord :: p, _, s =>
    match s with
    | x :: xs =>
      if !isWordChar x then (matchHere p false xs).map (fun r => (x :: r.1, r.2)) else none
    | [] => none
  | Atom.plus c :: p, _, s =>
    match s with
    | x :: xs =>
      if x == c then
        (matchHere p false (xs.dropWhile (fun y => y == c))).map
          (fun r => (x :: xs.takeWhile (fun y => y == c) ++ r.1, r.2))
      else none
    | [] => none
  | Atom.bot :: p, atStart, s => if atStart then matchHere p atStart s else none
  | Atom.eot :: p, atStart, s => if s.isEmpty then matchHere p atStart s else none

/-- Expansion of a replacement template (`regexp.Expand`) for a match `m` without
named groups: `$0` is the match, `$$` a dollar sign, and a `$` that starts no
group name stays as it is.  The templates of `generatePAC` contain no other
`$`. -/
def expand (m : List Char) : List Char → List Char
  | [] => []
  | '$' :: '$' :: rest => '$' :: expand m rest
  | '$' :: '0' :: rest => m ++ expand m rest
  | c :: rest => c :: expand m rest

/-- Left-to-right replacement of the non-overlapping matches of `p`.  `limit` is
the number of matches still to be replaced (`none`: all of them), `atStart` tells
whether the position is the beginning of the text, `skip` counts the characters
of the previous match that are still to be passed over.  The patterns of
`generatePAC` consume at least one character, so there are no empty matches. -/
def replaceFrom (p : Pattern) (repl : List Char → List Char) :
    Option Nat → Bool → Nat → List Char → List Char
  | _, _, _, [] => []
  | limit, _, skip + 1, _ :: xs => replaceFrom p repl limit false skip xs
  | limit, atStart, 0, x :: xs =>
    if limit == some 0 then x :: xs
    else
      match matchHere p atStart (x :: xs) with
      | some (m, _) =>
        if m.isEmpty then x :: replaceFrom p repl limit false 0 xs
        else repl m ++ replaceFrom p repl (limit.map (fun n => n - 1)) false (m.length - 1) xs
      | none => x :: replaceFrom p repl limit false 0 xs

/-- Go `(*Regexp).ReplaceAllString(src, repl)`. -/
def ReplaceAllString (re : Pattern) (src : List Char) (repl : String) : List Char :=
  replaceFrom re (fun m => expand m repl.data) none true 0 src

/-- Modelled from the spec: `util.RegexpReplace(str, replace, regex, count)` is
defined outside spac.go.  Each use rewrites an anchored occurrence ("a pattern
beginning with ... becomes", "strip a redundant leading or trailing `.*`") with
`count` 1: the first `count` matches of `regex` are replaced by the text
`replace`. -/
def RegexpReplace (str : List Char) (replace : String) (regex : Pattern) (count : Nat) :
    List Char :=
  replaceFrom regex (fun _ => replace.data) (some count) true 0 str

/-- Go `strings.Replace(s, old, new, -1)` for a non-empty `old`. -/
def stringsReplaceAll (s : List Char) (old new : String) : List Char :=
  replaceFrom (old.data.map Atom.lit) (fun _ => new.data) none true 0 s

/-! ## The list translator (spac.go:205-310) -/

/-- Two ways the run of `generatePAC` can stop without a result. -/
inductive PacFailure where
  /-- Go run-time panic: slice bounds out of range at `str[1 : len(str)-1]`
  (spac.go:257). -/
  | panicSliceBounds
  /-- The 4096-byte buffer of `bufio.Reader` ends inside a multi-byte character:
  `ReadLine` returns pieces that are not valid UTF-8, outside this embedding. -/
  | bufferSplitsCharacter
deriving DecidableEq, Repr

deriving instance DecidableEq for Except

/-- Size of the buffer of `bufio.NewReader`. -/
def bufSize : Nat := 4096

/-- The successive results of `reader.ReadLine()` until it reports an error
(end of input), the `isPrefix` flag being ignored as in spac.go:233.  `cur` is the
part of the current line read so far, in reverse, and `n` its size in bytes.
A line is returned without its `"\n"` or `"\r\n"`; when the buffer is full before
a line end is found, the buffer content is returned as a line of its own (a final
`'\r'` being kept for the next call). -/
def readLines : List Char → List Char → Nat → Except PacFailure (List (List Char))
  | [], cur, _ => if cur.isEmpty then .ok [] else .ok [cur.reverse]
  | c :: rest, cur, n =>
    if c == '\n' then
      let line := match cur with
        | '\r' :: cur1 => cur1
        | _ => cur
      match readLines rest [] 0 with
      | .ok ls => .ok (line.reverse :: ls)
      | .error e => .error e
    else if n + c.utf8Size < bufSize then readLines rest (c :: cur) (n + c.utf8Size)
    else if n + c.utf8Size == bufSize then
      if c == '\r' then
        match readLines rest ['\r'] 1 with
        | .ok ls => .ok (cur.reverse :: ls)
        | .error e => .error e
      else
        match readLines rest [] 0 with
        | .ok ls => .ok ((c :: cur).reverse :: ls)
        | .error e => .error e
    else .error PacFailure.bufferSplitsCharacter

/-- Apply `f` to the compiled pattern when `regexp.Compile` succeeds
(`if tmp, err := regexp.Compile(expr); err == nil`), else keep `dflt`. -/
def withCompiled (expr : String) (dflt : List Char) (f : Pattern → List Char) : List Char :=
  match Compile expr with
  | some tmp => f tmp
  | none => dflt

/-- The glob translation of `generatePAC` (spac.go:259-289): the value of
`jsRegexp` for a line `str` that is not of the form `/.../`. -/
def globToRegexp (str : List Char) : List Char :=
  let jsRegexp : List Char := []
  let jsRegexp := withCompiled "\\*+" jsRegexp (fun tmp => ReplaceAllString tmp str "*")
  let jsRegexp := withCompiled "\\^\\|$" jsRegexp (fun tmp => RegexpReplace jsRegexp "^" tmp 1)
  let jsRegexp := withCompiled "(\\W)" jsRegexp (fun tmp => ReplaceAllString tmp jsRegexp "\\$0")
  let jsRegexp := stringsReplaceAll jsRegexp "\\*" ".*"
  let jsRegexp := withCompiled "\\\\^" jsRegexp
    (fun tmp => ReplaceAllString tmp jsRegexp "(?:[^\\w\\-.%\u0080-\uFFFF]|$)")
  let jsRegexp := withCompiled "^\\\\\\|\\\\\\|" jsRegexp
    (fun tmp => RegexpReplace jsRegexp "^[\\w\\-]+:\\/+(?!\\/)(?:[^\\/]+\\.)?" tmp 1)
  let jsRegexp := withCompiled "^\\\\\\|" jsRegexp (fun tmp => RegexpReplace jsRegexp "^" tmp 1)
  let jsRegexp := withCompiled "\\\\\\|$" jsRegexp (fun tmp => RegexpReplace jsRegexp "$" tmp 1)
  let jsRegexp := withCompiled "^(\\.\\*)" jsRegexp (fun tmp => RegexpReplace jsRegexp "" tmp 1)
  let jsRegexp := withCompiled "(\\.\\*)$" jsRegexp (fun tmp => RegexpReplace jsRegexp "" tmp 1)
  jsRegexp

/-- The check line `fmt.Sprintf("if(/%s/i.test(url)) return %s;", jsRegexp, proxyVar)`
(spac.go:294). -/
def jsLineOf (jsRegexp : List Char) (proxyVar : String) : String :=
  ⟨"if(/".data ++ jsRegexp ++ "/i.test(url)) return ".data ++ proxyVar.data ++ ";".data⟩

/-- The second half of the loop body of `generatePAC` (spac.go:254-294): the
check line for the text `str` of a list line and its `proxyVar`. -/
def checkLine (str : List Char) (proxyVar : String) : Except PacFailure (String × String) :=
  if "/".data.isPrefixOf str && "/".data.reverse.isPrefixOf str.reverse then
    if 1 ≤ str.length - 1 then
      .ok (proxyVar, jsLineOf ((str.drop 1).take (str.length - 2)) proxyVar)
    else .error PacFailure.panicSliceBounds
  else .ok (proxyVar, jsLineOf (globToRegexp str) proxyVar)

/-- The body of the loop of `generatePAC` for one line after the first
(spac.go:242-294): `none` when the line is skipped (empty or a comment), else
`proxyVar` and the check line.  The slice `str[1 : len(str)-1]` panics when its
lower bound exceeds its upper bound; both `/` are one byte long, so the slice
drops the first and the last character. -/
def translateLine (line : List Char) : Except PacFailure (Option (String × String)) :=
  let str := trimSpaceChars line
  if "!".data.isPrefixOf str || str.length == 0 then .ok none
  else
    match (if "@@".data.isPrefixOf str then checkLine (str.drop 2) "DEFAULT"
           else checkLine str "PROXY") with
    | .ok r => .ok (some r)
    | .error e => .error e

/-- The loop of `generatePAC` (spac.go:232-301) over the lines read: `i` counts
the lines, the first one is skipped, an allow line is put in front of `jscode`
and a block line at its end. -/
def pacLoop : List (List Char) → Nat → List String → Except PacFailure (List String)
  | [], _, jscode => .ok jscode
  | line :: rest, i, jscode =>
    if i + 1 == 1 then pacLoop rest (i + 1) jscode
    else
      match translateLine line with
      | .error e => .error e
      | .ok none => pacLoop rest (i + 1) jscode
      | .ok (some (proxyVar, jsLine)) =>
        if proxyVar == "DEFAULT" then pacLoop rest (i + 1) (jsLine :: jscode)
        else pacLoop rest (i + 1) (jscode ++ [jsLine])

/-- The text `generatePAC` translates (spac.go:226-228): `content`, followed by
the user list when `spac/user-gfwlist.txt` could be read (`usercontent`). -/
def pacInput (content : String) (usercontent : Option String) : List Char :=
  match usercontent with
  | some u => content.data ++ "\n".data ++ u.data
  | none => content.data

/-- The final value of `jscode` in `generatePAC`: the check lines, in the order
in which they are written to the script. -/
def pacRuleLines (content : String) (usercontent : Option String) :
    Except PacFailure (List String) :=
  match readLines (pacInput content usercontent) [] 0 with
  | .error e => .error e
  | .ok lines => pacLoop lines 0 []

/-- Go `strings.Join`. -/
def Join : List String → String → String
  | [], _ => ""
  | [a], _ => a
  | a :: b :: rest, sep => a ++ sep ++ Join (b :: rest) sep

/-- The template `pacGenFormatter` (spac.go:177) up to `{{.RuleListCode}}`, with
the fields set at spac.go:216-223 filled in. -/
def pacHead (pac_proxy url date : String) : String :=
  "/*\n * Proxy Auto-Config file generated by autoproxy2pac\n *  Rule source: " ++ url
    ++ "\n *  Last update: " ++ date
    ++ "\n */\nfunction FindProxyForURL(url, host) \x7b\n\tvar " ++ "PROXY" ++ " = \""
    ++ ("PROXY " ++ pac_proxy) ++ "\";\n\tvar " ++ "DEFAULT" ++ " = \"" ++ "DIRECT"
    ++ "\";\n\t" ++ "" ++ "\n\t" ++ "//-- AUTO-GENERATED RULES, DO NOT MODIFY!" ++ "\n\t"

/-- The template `pacGenFormatter` after `{{.RuleListCode}}`. -/
def pacTail : String :=
  "\n\t" ++ "//-- END OF AUTO-GENERATED RULES" ++ "\n\t" ++ "" ++ "\n\treturn "
    ++ "DEFAULT" ++ ";\n\x7d"

/-- Go `generatePAC` (spac.go:205): the template `pacGenFormatter` filled in.
`usercontent` is the content of `spac/user-gfwlist.txt` when it can be read and
`pac_proxy` the package variable of that name. -/
def generatePAC (pac_proxy : String) (usercontent : Option String) (url date content : String) :
    Except PacFailure String :=
  match pacRuleLines content usercontent with
  | .error e => .error e
  | .ok jscode => .ok (pacHead pac_proxy url date ++ Join jscode "\r\n\t" ++ pacTail)

/-- Does a check line return `DEFAULT` (an allow line). -/
def returnsDefault (jsLine : String) : Bool := HasSuffix jsLine " return DEFAULT;"

/-- Does a check line return `PROXY` (a block line). -/
def returnsProxy (jsLine : String) : Bool := HasSuffix jsLine " return PROXY;"

/-! ## A concrete environment, used to evaluate the definitions -/

/-- ASCII case folding of one character. -/
def foldChar (c : Char) : Char :=
  if 65 ≤ c.toNat ∧ c.toNat ≤ 90 then Char.ofNat (c.toNat + 32) else c

/-- Case-insensitive comparison on ASCII letters. -/
def asciiEqualFold (s t : String) : Bool := s.data.map foldChar == t.data.map foldChar

/-- Split a character list at its last colon. -/
def splitLastColon : List Char → Option (List Char × List Char)
  | [] => none
  | c :: cs =>
    match splitLastColon cs with
    | some (h, p) => some (c :: h, p)
    | none => if c == ':' then some ([], cs) else none

/-- A compiled pattern that matches exactly one string. -/
def exactRegexp (pat : String) : Regexp := { MatchString := fun s => s == pat }

/-- Sample environment: the GAE manager is registered, host lookup is enabled
and confirms `open.example:80` only, `192.168.*` and `127.0.0.1` are private. -/
def exEnv : Env where
  EqualFold := asciiEqualFold
  SplitHostPort := fun s =>
    match splitLastColon s.data with
    | some (h, p) => some (⟨h⟩, ⟨p⟩)
    | none => none
  JoinHostPort := fun h p => h ++ ":" ++ p
  invokeFilter := fun f req => f == "always" || (f == "isGet" && req.Method == "GET")
  hostsEnable := 1
  HOSTS_DISABLE := 0
  lookupAvailableHostPort := fun _ hp => (hp, hp == "open.example:80")
  IsPrivateIP := fun h => HasPrefix h "192.168." || h == "127.0.0.1"
  IsSelfIP := fun h => h == "192.168.1.1"
  PrepareRegexp := fun pat _ => if Contains pat "(" then .error "bad pattern" else .ok (exactRegexp pat)
  ProxyPort := "48100"
  GAE_NAME := "GAE"
  C4_NAME := "C4"
  SSH_NAME := "SSH"
  GOOGLE_NAME := "Google"
  GOOGLE_HTTP_NAME := "GoogleHttp"
  GOOGLE_HTTPS_NAME := "GoogleHttps"
  DIRECT_NAME := "Direct"
  DEFAULT_NAME := "Default"
  AUTO_NAME := "Auto"
  ATTR_REDIRECT_HTTPS := "RedirectHttps"
  HTTPS_TUNNEL := 2
  google_enable := true
  httpGoogleManager := .manager "httpGoogle"
  httpsGoogleManager := .manager "httpsGoogle"
  registedRemoteConnManager := fun n => if n == "GAE" then some (.manager "gae") else none

/-- The sample environment with host lookup switched off. -/
def exEnvNoHosts : Env := { exEnv with hostsEnable := 0 }

/-- A rule with every criterion empty. -/
def emptyRule : JsonRule where
  Method := []
  Host := []
  URL := []
  Proxy := []
  Filter := []
  Protocol := ""
  Attr := []
  method_regex := []
  host_regex := []
  url_regex := []

/-- Sample rule: `GET` requests to `a.example` go to `C4`, tagged `X`. -/
def exRuleA : JsonRule :=
  { emptyRule with
    Method := ["GET"], Host := ["a.example"], Proxy := ["C4"], Attr := ["X"],
    method_regex := [exactRegexp "GET"], host_regex := [exactRegexp "a.example"] }

/-- Sample rule: everything goes to `SSH`, tagged `Y`. -/
def exRuleAll : JsonRule := { emptyRule with Proxy := ["SSH"], Attr := ["Y"] }

/-- Sample rule: everything is redirected to HTTPS. -/
def exRuleRedirect : JsonRule := { emptyRule with Proxy := ["Direct"], Attr := ["RedirectHttps"] }

/-- Sample request. -/
def exReq : Request := { Method := "GET", Host := "a.example", RequestURI := "http://a.example/" }

/-- Sample request for a host the lookup confirms. -/
def exReqOpen : Request := { Method := "GET", Host := "open.example", RequestURI := "http://open.example/" }

/-- Sample request for a private address. -/
def exReqPrivate : Request := { Method := "GET", Host := "192.168.1.5", RequestURI := "http://192.168.1.5/" }

/-- Sample connection: plain HTTP, accepted on an ordinary listener. -/
def exConn : SessionConnection := { Type_ := 1, ProxyServerType := .other 0 }

/-- Sample connection: plain HTTP, accepted on the GAE listener. -/
def exConnGAE : SessionConnection := { Type_ := 1, ProxyServerType := .GAE_PROXY_SERVER }

/-! ## Assumption on the name constants -/

/-- No string of the list equals, under `EqualFold`, a later one (checked in
both argument orders). -/
def foldDistinct (E : Env) : List String → Bool
  | [] => true
  | a :: rest =>
    rest.all (fun b => !E.EqualFold a b && !E.EqualFold b a) && foldDistinct E rest

/-- The symbolic proxy names are declared outside spac.go.  `SelectProxy` tells
them apart with `strings.EqualFold` (the `DEFAULT_NAME` test and
`adjustProxyName`) and with `==` (the `switch` on the adjusted name).  This
predicate says that those comparisons do tell them apart: no two of the six
symbolic names are equal up to case, and the six `case` constants of the switch
are different strings. -/
def Env.namesDistinct (E : Env) : Prop :=
  foldDistinct E
      [E.GOOGLE_NAME, E.GAE_NAME, E.C4_NAME, E.SSH_NAME, E.DIRECT_NAME, E.DEFAULT_NAME] = true
    ∧ [E.GAE_NAME, E.C4_NAME, E.SSH_NAME, E.GOOGLE_HTTP_NAME, E.GOOGLE_HTTPS_NAME,
        E.DIRECT_NAME].Nodup

/-! ## Loading and reloading the rule files (spac.go:38-92) -/

/-- How a part of `loadSpacScript` ends. -/
inductive Outcome (α : Type) where
  /-- It runs to its end, with this value. -/
  | ok (a : α)
  /-- `loadSpacScript` returns this non-nil error. -/
  | error (err : String)
  /-- Go run-time panic, nil pointer dereference: `init` is called on a nil
  `*JsonRule` (spac.go:57) and reads `r.Method` (spac.go:123). -/
  | panic

/-- What `ioutil.ReadFile` and `json.Unmarshal` yield for one path of
`spac_script_path` (spac.go:47-55). -/
inductive ScriptFile where
  /-- `ioutil.ReadFile` returned an error. -/
  | readError (err : String)
  /-- The file was read and `json.Unmarshal` returned an error. -/
  | unmarshalError (err : String)
  /-- The file was read and decoded into `tmp`, a `[]*JsonRule`; an element is
  `none` for a nil pointer, which `json.Unmarshal` stores for a JSON `null`. -/
  | parsed (tmp : List (Option JsonRule))

/-- The loop `for _, json_rule := range tmp` of `loadSpacScript` (spac.go:56-61):
each rule is compiled in turn, the first error is returned; a nil rule makes
`init` panic. -/
def initRules (E : Env) : List (Option JsonRule) → Outcome (List JsonRule)
  | [] => .ok []
  | none :: _ => .panic
  | some json_rule :: rest =>
    match json_rule.init E with
    | .error err => .error err
    | .ok r =>
      match initRules E rest with
      | .ok rs => .ok (r :: rs)
      | .error err => .error err
      | .panic => .panic

/-- The loop over `spac_script_path` of `loadSpacScript` (spac.go:46-66), `rules`
being the rules collected so far: a read error and a pattern error return the
error, a file that does not decode is passed over. -/
def loadLoop (E : Env) : List ScriptFile → List JsonRule → Outcome (List JsonRule)
  | [], rules => .ok rules
  | ScriptFile.readError err :: _, _ => .error err
  | ScriptFile.unmarshalError _ :: rest, rules => loadLoop E rest rules
  | ScriptFile.parsed tmp :: rest, rules =>
    match initRules E tmp with
    | .ok tmp1 => loadLoop E rest (rules ++ tmp1)
    | .error err => .error err
    | .panic => .panic

/-- How a call of `loadSpacScript` ends, with the value the package variable
`spac` has then. -/
inductive LoadResult where
  /-- The call returns `err` (`none` for `nil`). -/
  | returned (spac : SpacConfig) (err : Option String)
  /-- The call panics. -/
  | panicked (spac : SpacConfig)

/-- The value of the package variable `spac` when the call ends. -/
def LoadResult.spac : LoadResult → SpacConfig
  | .returned spac _ => spac
  | .panicked spac => spac

/-- Go `loadSpacScript` (spac.go:38).  `files` holds one entry per path of
`spac_script_path`, in order; `spac.rules` is assigned only when the loop over
the files has run to its end (spac.go:67). -/
def loadSpacScript (E : Env) (files : List ScriptFile) (spac : SpacConfig) : LoadResult :=
  match loadLoop E files [] with
  | .ok rules => .returned { spac with rules := rules } none
  | .error err => .returned spac (some err)
  | .panic => .panicked spac

/-- Go `time.Time`, as the number of time units elapsed since the zero time:
`IsZero` is `= 0` and `Before` is `<`. -/
abbrev Time := Nat

/-- The loop over the watched files in one tick of `reloadSpacScript`
(spac.go:78-86).  `stats` holds, per path, `none` when `os.Stat` fails and the
`ModTime()` otherwise; the second list is `mod_times`, of the same length; the
Boolean is `modified`. -/
def statLoop : List (Option Time) → List Time → Bool → Bool × List Time
  | some mt :: stats, old :: mod_times, modified =>
    let modified := if !(old == 0) && old < mt then true else modified
    ((statLoop stats mod_times modified).1, mt :: (statLoop stats mod_times modified).2)
  | none :: stats, old :: mod_times, modified =>
    ((statLoop stats mod_times modified).1, old :: (statLoop stats mod_times modified).2)
  | _, mod_times, modified => (modified, mod_times)

/-- One tick of `reloadSpacScript` (spac.go:76-89): whether `loadSpacScript` is
called, and the new `mod_times`. -/
def reloadTick (stats : List (Option Time)) (mod_times : List Time) : Bool × List Time :=
  statLoop stats mod_times false

/-- The successive ticks of `reloadSpacScript`, from the given `mod_times`: for
each tick, whether `loadSpacScript` is called. -/
def reloadTicks : List (List (Option Time)) → List Time → List Bool
  | [], _ => []
  | stats :: later, mod_times =>
    (reloadTick stats mod_times).1 :: reloadTicks later (reloadTick stats mod_times).2

/-- Go `reloadSpacScript` (spac.go:71) over a finite run of ticks: `mod_times`
starts as `make([]time.Time, len(spac_script_path))`, all zero. -/
def reloadSpacScript (npaths : Nat) (ticks : List (List (Option Time))) : List Bool :=
  reloadTicks ticks (List.replicate npaths 0)

/-! ## Notions used to state the claims -/

/-- Does the text end in a port: a colon followed by one or more decimal
digits. -/
def carriesPort (s : String) : Bool :=
  match splitLastColon s.data with
  | some (_, p) => !p.isEmpty && p.all Char.isDigit
  | none => false

/-- The lines of a text: the pieces between line ends, a line end being `"\n"`
or `"\r\n"`; text after the last line end is a line when it is not empty.  `cur`
is the current line so far, in reverse. -/
def contentLines : List Char → List Char → List (List Char)
  | [], cur => if cur.isEmpty then [] else [cur.reverse]
  | c :: rest, cur =>
    if c == '\n' then
      (match cur with
        | '\r' :: cur1 => cur1.reverse
        | _ => cur.reverse) :: contentLines rest []
    else contentLines rest (c :: cur)

/-- No line of the text reaches the size of the read buffer (4096 bytes); `n` is
the size in bytes of the current line so far. -/
def shortLines : List Char → Nat → Bool
  | [], _ => true
  | c :: rest, n =>
    if c == '\n' then shortLines rest 0
    else n + c.utf8Size < bufSize && shortLines rest (n + c.utf8Size)

/-- A list entry: a line that is non-empty after trimming and does not start
with `!`. -/
def isListEntry (line : List Char) : Bool :=
  !(trimSpaceChars line).isEmpty && !("!".data.isPrefixOf (trimSpaceChars line))

/-! ## Theorems -/

/-! ### Helper lemmas -/

theorem lookup_filter_ne (m : AttrMap) (k t : String) (h : k ≠ t) :
    List.lookup k (m.filter (fun p => !(p.1 == t))) = List.lookup k m := by
  induction m with
  | nil => rfl
  | cons p m ih =>
    obtain ⟨a, b⟩ := p
    by_cases hat : a = t
    · subst hat
      have hk : (k == a) = false := by simpa using h
      simp [List.filter, List.lookup, hk, ih]
    · have hf : (!(a == t)) = true := by simpa using hat
      simp only [List.filter, hf, List.lookup]
      rw [ih]

theorem lookup_set (m : AttrMap) (t v k : String) :
    List.lookup k (m.set t v) = if k = t then some v else List.lookup k m := by
  unfold AttrMap.set
  by_cases h : k = t
  · subst h
    simp [List.lookup]
  · have hk : (k == t) = false := by simpa using h
    simp only [List.lookup, hk, h, if_false]
    exact lookup_filter_ne m k t h

theorem lookup_setAttrs (tags : List String) (m : AttrMap) (k : String) :
    List.lookup k (setAttrs m tags) = if k ∈ tags then some k else List.lookup k m := by
  induction tags generalizing m with
  | nil => simp [setAttrs]
  | cons t ts ih =>
    have hstep : setAttrs m (t :: ts) = setAttrs (m.set t t) ts := rfl
    rw [hstep, ih, lookup_set]
    by_cases hk : k ∈ ts
    · simp [hk]
    · by_cases hkt : k = t
      · subst hkt
        simp
      · simp [hk, hkt]

theorem selectFirstMatch_none (E : Env) (req : Request) (isHttpsConn : Bool) (attrs : AttrMap)
    (rules : List JsonRule) (h : ∀ r ∈ rules, r.match E req isHttpsConn = false) :
    selectFirstMatch E req isHttpsConn attrs rules = none := by
  induction rules with
  | nil => rfl
  | cons r rs ih =>
    have hr := h r (List.mem_cons_self _ _)
    simp only [selectFirstMatch, hr]
    exact ih (fun q hq => h q (List.mem_cons_of_mem _ hq))

theorem selectFirstMatch_append (E : Env) (req : Request) (isHttpsConn : Bool) (attrs : AttrMap)
    (pre : List JsonRule) (r : JsonRule) (post : List JsonRule)
    (hpre : ∀ q ∈ pre, q.match E req isHttpsConn = false)
    (hr : r.match E req isHttpsConn = true) :
    selectFirstMatch E req isHttpsConn attrs (pre ++ r :: post)
      = some (r.Proxy, setAttrs attrs r.Attr) := by
  induction pre with
  | nil => simp [selectFirstMatch, hr]
  | cons q qs ih =>
    have hq := hpre q (List.mem_cons_self _ _)
    simp only [List.cons_append, selectFirstMatch, hq]
    exact ih (fun x hx => hpre x (List.mem_cons_of_mem _ hx))

theorem matchFiltersLoop_iff (E : Env) (req : Request) (fs : List String) :
    matchFiltersLoop E req fs = true ↔ ∀ f ∈ fs, E.invokeFilter f req = true := by
  induction fs with
  | nil => simp [matchFiltersLoop]
  | cons f rest ih =>
    by_cases hf : E.invokeFilter f req = true
    · simp [matchFiltersLoop, hf, ih]
    · simp [matchFiltersLoop, hf]

theorem initRegexSlice_nil (E : Env) : initRegexSlice E [] = .ok [] := rfl

theorem exists_first_match {α : Type} (p : α → Bool) (l : List α) (h : ∃ r ∈ l, p r = true) :
    ∃ pre r post, l = pre ++ r :: post ∧ (∀ q ∈ pre, p q = false) ∧ p r = true := by
  induction l with
  | nil => obtain ⟨r, hr, _⟩ := h; cases hr
  | cons a l ih =>
    by_cases ha : p a = true
    · exact ⟨[], a, l, rfl, by simp, ha⟩
    · have h2 : ∃ r ∈ l, p r = true := by
        obtain ⟨r, hr, hp⟩ := h
        rcases List.mem_cons.mp hr with rfl | hr
        · exact absurd hp ha
        · exact ⟨r, hr, hp⟩
      obtain ⟨pre, r, post, hl, hpre, hr⟩ := ih h2
      refine ⟨a :: pre, r, post, by simp [hl], ?_, hr⟩
      intro q hq
      rcases List.mem_cons.mp hq with rfl | hq
      · simpa using ha
      · exact hpre q hq

theorem selectProxyByRequest_of_split (E : Env) (spac : SpacConfig) (req : Request)
    (host port : String) (isHttpsConn : Bool) (proxyNames : List String)
    (pre : List JsonRule) (r : JsonRule) (post : List JsonRule)
    (hrules : spac.rules = pre ++ r :: post)
    (hpre : ∀ q ∈ pre, q.match E req isHttpsConn = false)
    (hr : r.match E req isHttpsConn = true) :
    selectProxyByRequest E spac req host port isHttpsConn proxyNames
      = (r.Proxy, setAttrs [] r.Attr, []) := by
  unfold selectProxyByRequest
  simp only [hrules, selectFirstMatch_append E req isHttpsConn [] pre r post hpre hr]

theorem selectProxyByRequest_no_match (E : Env) (spac : SpacConfig) (req : Request)
    (host port : String) (isHttpsConn : Bool) (proxyNames : List String)
    (hno : ∀ r ∈ spac.rules, r.match E req isHttpsConn = false) :
    selectProxyByRequest E spac req host port isHttpsConn proxyNames
      = if E.hostsEnable != E.HOSTS_DISABLE then
          if (E.lookupAvailableHostPort req (E.JoinHostPort host port)).2 then
            ([E.DIRECT_NAME, spac.defaultRule],
              (if !E.EqualFold req.Method "Connect" then AttrMap.set [] "CRLF" "CRLF" else []),
              [Effect.lookupAvailableHostPort req (E.JoinHostPort host port)])
          else (proxyNames, [], [Effect.lookupAvailableHostPort req (E.JoinHostPort host port)])
        else (proxyNames, [], []) := by
  unfold selectProxyByRequest
  simp only [selectFirstMatch_none E req isHttpsConn [] spac.rules hno]

/-! ### C1 -/

/-- C1: if at least one rule matches, `selectProxyByRequest` returns the `Proxy`
list of the matching rule with the lowest index, with an attribute map whose keys
are exactly that rule's `Attr` tags, each mapped to itself; the result is read
from that rule alone and the host-availability lookup is not called. -/
theorem selectProxyByRequest_first_match (E : Env) (spac : SpacConfig) (req : Request)
    (host port : String) (isHttpsConn : Bool) (proxyNames : List String)
    (h : ∃ r ∈ spac.rules, r.match E req isHttpsConn = true) :
    ∃ (i : Nat) (hi : i < spac.rules.length),
      (spac.rules.get ⟨i, hi⟩).match E req isHttpsConn = true
      ∧ (∀ (j : Nat) (hj : j < spac.rules.length), j < i →
          (spac.rules.get ⟨j, hj⟩).match E req isHttpsConn = false)
      ∧ (selectProxyByRequest E spac req host port isHttpsConn proxyNames).1
          = (spac.rules.get ⟨i, hi⟩).Proxy
      ∧ (∀ k : String,
          List.lookup k (selectProxyByRequest E spac req host port isHttpsConn proxyNames).2.1
            = if k ∈ (spac.rules.get ⟨i, hi⟩).Attr then some k else none)
      ∧ (selectProxyByRequest E spac req host port isHttpsConn proxyNames).2.2 = [] := by
  obtain ⟨pre, r, post, hl, hpre, hr⟩ :=
    exists_first_match (fun q => q.match E req isHttpsConn) spac.rules h
  have hres := selectProxyByRequest_of_split E spac req host port isHttpsConn proxyNames
    pre r post hl hpre hr
  have hi : pre.length < spac.rules.length := by simp [hl]
  have hget : spac.rules.get ⟨pre.length, hi⟩ = r := by
    simp only [List.get_eq_getElem, hl]
    rw [List.getElem_append_right (Nat.le_refl _)]
    simp
  refine ⟨pre.length, hi, ?_, ?_, ?_, ?_, ?_⟩
  · rw [hget]; exact hr
  · intro j hj hlt
    have hmem : spac.rules.get ⟨j, hj⟩ ∈ pre := by
      have : spac.rules.get ⟨j, hj⟩ = pre.get ⟨j, hlt⟩ := by
        simp [List.get_eq_getElem, hl, List.getElem_append_left, hlt]
      rw [this]
      exact List.get_mem pre j hlt
    exact hpre _ hmem
  · rw [hres, hget]
  · intro k
    rw [hres, hget]
    simpa using lookup_setAttrs r.Attr [] k
  · rw [hres]

/-- Witness for C1: two overlapping rules, the first one wins. -/
theorem selectProxyByRequest_first_match_witness :
    (selectProxyByRequest exEnv { defaultRule := "GAE", rules := [exRuleAll, exRuleA] } exReq
        "a.example" "80" false ["GAE"] = (["SSH"], [("Y", "Y")], []))
    ∧ ∃ (i : Nat) (hi : i < [exRuleAll, exRuleA].length),
      ([exRuleAll, exRuleA].get ⟨i, hi⟩).match exEnv exReq false = true
      ∧ (∀ (j : Nat) (hj : j < [exRuleAll, exRuleA].length), j < i →
          ([exRuleAll, exRuleA].get ⟨j, hj⟩).match exEnv exReq false = false)
      ∧ (selectProxyByRequest exEnv { defaultRule := "GAE", rules := [exRuleAll, exRuleA] } exReq
          "a.example" "80" false ["GAE"]).1 = ([exRuleAll, exRuleA].get ⟨i, hi⟩).Proxy
      ∧ (∀ k : String,
          List.lookup k (selectProxyByRequest exEnv
              { defaultRule := "GAE", rules := [exRuleAll, exRuleA] } exReq
              "a.example" "80" false ["GAE"]).2.1
            = if k ∈ ([exRuleAll, exRuleA].get ⟨i, hi⟩).Attr then some k else none)
      ∧ (selectProxyByRequest exEnv { defaultRule := "GAE", rules := [exRuleAll, exRuleA] } exReq
          "a.example" "80" false ["GAE"]).2.2 = [] :=
  ⟨by decide,
    selectProxyByRequest_first_match exEnv { defaultRule := "GAE", rules := [exRuleAll, exRuleA] }
      exReq "a.example" "80" false ["GAE"] ⟨exRuleA, by simp, by decide⟩⟩

/-! ### C2 -/

/-- C2, as stated, fails: with host lookup enabled and the host confirmed, a
request that no rule matches does not get the fallback list `["GAE"]` and an
empty attribute map, but `[DIRECT_NAME, defaultRule]` and the `CRLF` attribute. -/
theorem selectProxyByRequest_fallback_counterexample :
    (∀ r ∈ [exRuleA], r.match exEnv exReqOpen false = false)
    ∧ selectProxyByRequest exEnv { defaultRule := "GAE", rules := [exRuleA] } exReqOpen
        "open.example" "80" false ["GAE"]
      = (["Direct", "GAE"], [("CRLF", "CRLF")],
          [Effect.lookupAvailableHostPort exReqOpen "open.example:80"])
    ∧ ¬ ((selectProxyByRequest exEnv { defaultRule := "GAE", rules := [exRuleA] } exReqOpen
          "open.example" "80" false ["GAE"]).1 = ["GAE"]
        ∧ (selectProxyByRequest exEnv { defaultRule := "GAE", rules := [exRuleA] } exReqOpen
          "open.example" "80" false ["GAE"]).2.1 = []) := by
  refine ⟨by decide, by decide, by decide⟩

/-- C2, amended: when no rule matches and the host-availability step does not
fire (host lookup is disabled, or the lookup does not confirm the host:port),
`selectProxyByRequest` returns the caller's fallback list `proxyNames` unchanged
and an empty attribute map. -/
theorem selectProxyByRequest_fallback (E : Env) (spac : SpacConfig) (req : Request)
    (host port : String) (isHttpsConn : Bool) (proxyNames : List String)
    (hno : ∀ r ∈ spac.rules, r.match E req isHttpsConn = false)
    (hhosts : E.hostsEnable = E.HOSTS_DISABLE
      ∨ (E.lookupAvailableHostPort req (E.JoinHostPort host port)).2 = false) :
    (selectProxyByRequest E spac req host port isHttpsConn proxyNames).1 = proxyNames
    ∧ (selectProxyByRequest E spac req host port isHttpsConn proxyNames).2.1 = [] := by
  rw [selectProxyByRequest_no_match E spac req host port isHttpsConn proxyNames hno]
  rcases hhosts with hd | hl
  · simp [hd]
  · by_cases hd : (E.hostsEnable != E.HOSTS_DISABLE) = true
    · simp [hd, hl]
    · simp [hd]

/-- Witness for amended C2: lookup enabled, host not confirmed. -/
theorem selectProxyByRequest_fallback_witness :
    (∀ r ∈ [exRuleA], r.match exEnv { exReq with Host := "b.example" } false = false)
    ∧ (selectProxyByRequest exEnv { defaultRule := "GAE", rules := [exRuleA] }
        { exReq with Host := "b.example" } "b.example" "80" false ["C4", "GAE"]).1 = ["C4", "GAE"]
    ∧ (selectProxyByRequest exEnv { defaultRule := "GAE", rules := [exRuleA] }
        { exReq with Host := "b.example" } "b.example" "80" false ["C4", "GAE"]).2.1 = [] :=
  ⟨by decide,
    selectProxyByRequest_fallback exEnv { defaultRule := "GAE", rules := [exRuleA] }
      { exReq with Host := "b.example" } "b.example" "80" false ["C4", "GAE"]
      (by decide) (Or.inr (by decide))⟩

/-! ### C3 -/

/-- C3: `matchRegexs str rules` is true exactly when `rules` is empty or some
pattern of `rules` matches `str`; in particular an empty list matches every
string. -/
theorem matchRegexs_iff (str : String) (rules : List Regexp) :
    (matchRegexs str rules = true ↔ (rules = [] ∨ ∃ regex ∈ rules, regex.MatchString str = true))
    ∧ (∀ s : String, matchRegexs s [] = true) := by
  constructor
  · cases rules with
    | nil => simp [matchRegexs]
    | cons r rs => simp [matchRegexs]
  · intro s
    rfl

/-! ### C4 -/

/-- C4: `JsonRule.match` is true exactly when all five checks hold: every named
filter returns true, the protocol check passes, and the method, host and URL
pattern sets match `req.Method`, `req.Host` and `req.RequestURI`; if one check
fails the rule does not match.  A rule whose `Filter`, `Protocol`, `Method`,
`Host` and `URL` are empty compiles (`init` succeeds) and then matches every
request. -/
theorem JsonRule_match_iff_all_checks (E : Env) (r : JsonRule) :
    (∀ (req : Request) (isHttpsConn : Bool),
      r.match E req isHttpsConn = true ↔
        ((∀ f ∈ r.Filter, E.invokeFilter f req = true)
          ∧ r.matchProtocol E req isHttpsConn = true
          ∧ matchRegexs req.Method r.method_regex = true
          ∧ matchRegexs req.Host r.host_regex = true
          ∧ matchRegexs req.RequestURI r.url_regex = true))
    ∧ (∀ (req : Request) (isHttpsConn : Bool),
        ((∃ f ∈ r.Filter, E.invokeFilter f req = false)
          ∨ r.matchProtocol E req isHttpsConn = false
          ∨ matchRegexs req.Method r.method_regex = false
          ∨ matchRegexs req.Host r.host_regex = false
          ∨ matchRegexs req.RequestURI r.url_regex = false) →
        r.match E req isHttpsConn = false)
    ∧ (r.Filter = [] → r.Protocol = "" → r.Method = [] → r.Host = [] → r.URL = [] →
        ∃ r', r.init E = .ok r' ∧ ∀ (req : Request) (isHttpsConn : Bool),
          r'.match E req isHttpsConn = true) := by
  have hiff : ∀ (req : Request) (isHttpsConn : Bool),
      r.match E req isHttpsConn = true ↔
        ((∀ f ∈ r.Filter, E.invokeFilter f req = true)
          ∧ r.matchProtocol E req isHttpsConn = true
          ∧ matchRegexs req.Method r.method_regex = true
          ∧ matchRegexs req.Host r.host_regex = true
          ∧ matchRegexs req.RequestURI r.url_regex = true) := by
    intro req isHttpsConn
    unfold JsonRule.match JsonRule.matchFilters
    simp only [Bool.and_eq_true, matchFiltersLoop_iff]
    tauto
  refine ⟨hiff, ?_, ?_⟩
  · intro req isHttpsConn hfail
    cases hm : r.match E req isHttpsConn with
    | false => rfl
    | true =>
      obtain ⟨h1, h2, h3, h4, h5⟩ := (hiff req isHttpsConn).mp hm
      rcases hfail with ⟨f, hf, hff⟩ | h | h | h | h
      · rw [h1 f hf] at hff; cases hff
      · rw [h2] at h; cases h
      · rw [h3] at h; cases h
      · rw [h4] at h; cases h
      · rw [h5] at h; cases h
  · intro hF hP hM hH hU
    refine ⟨{ r with method_regex := [], host_regex := [], url_regex := [] }, ?_, ?_⟩
    · simp [JsonRule.init, hM, hH, hU, initRegexSlice]
    · intro req isHttpsConn
      simp [JsonRule.match, JsonRule.matchFilters, JsonRule.matchProtocol, matchRegexs,
        matchFiltersLoop, hF, hP]

/-- Witness for C4: the all-empty rule compiles and matches the sample request. -/
theorem JsonRule_match_iff_all_checks_witness :
    emptyRule.Filter = [] ∧ emptyRule.Protocol = "" ∧ emptyRule.Method = []
    ∧ emptyRule.Host = [] ∧ emptyRule.URL = []
    ∧ ∃ r', emptyRule.init exEnv = .ok r' ∧ ∀ (req : Request) (isHttpsConn : Bool),
        r'.match exEnv req isHttpsConn = true :=
  ⟨rfl, rfl, rfl, rfl, rfl,
    (JsonRule_match_iff_all_checks exEnv emptyRule).2.2 rfl rfl rfl rfl rfl⟩

/-! ### C5 -/

/-- C5: for a rule with a non-empty `Protocol`, `matchProtocol` is true exactly
when `Protocol` equals, ignoring case, `"https"` if the request method is
CONNECT (ignoring case) or the connection is an HTTPS tunnel, and `"http"`
otherwise; for a rule with an empty `Protocol` it is true for every request. -/
theorem matchProtocol_spec (E : Env) (r : JsonRule) (req : Request) (isHttpsConn : Bool) :
    (r.Protocol ≠ "" →
      ((E.EqualFold req.Method "Connect" = true ∨ isHttpsConn = true) →
        (r.matchProtocol E req isHttpsConn = true ↔ E.EqualFold r.Protocol "https" = true))
      ∧ (¬ (E.EqualFold req.Method "Connect" = true ∨ isHttpsConn = true) →
        (r.matchProtocol E req isHttpsConn = true ↔ E.EqualFold r.Protocol "http" = true)))
    ∧ (r.Protocol = "" → r.matchProtocol E req isHttpsConn = true) := by
  constructor
  · intro hne
    have hlen : r.Protocol.length > 0 := by
      rcases hp : r.Protocol with ⟨l⟩
      cases l with
      | nil => exact absurd hp hne
      | cons c cs => simp [String.length]
    constructor
    · intro hc
      have hb : (E.EqualFold req.Method "Connect" || isHttpsConn) = true := by
        simpa using hc
      simp [JsonRule.matchProtocol, hlen, hb]
    · intro hc
      have hb : (E.EqualFold req.Method "Connect" || isHttpsConn) = false := by
        cases h1 : E.EqualFold req.Method "Connect" <;> cases h2 : isHttpsConn <;> simp_all
      simp [JsonRule.matchProtocol, hlen, hb]
  · intro he
    simp [JsonRule.matchProtocol, he]

/-- Witness for C5: protocol `HTTPS` matches a `connect` request and not a `GET`
request on a plain connection. -/
theorem matchProtocol_spec_witness :
    ({ emptyRule with Protocol := "HTTPS" } : JsonRule).Protocol ≠ ""
    ∧ (exEnv.EqualFold "connect" "Connect" = true ∨ false = true)
    ∧ (({ emptyRule with Protocol := "HTTPS" } : JsonRule).matchProtocol exEnv
          { exReq with Method := "connect" } false = true
        ↔ exEnv.EqualFold "HTTPS" "https" = true)
    ∧ ({ emptyRule with Protocol := "HTTPS" } : JsonRule).matchProtocol exEnv
          { exReq with Method := "connect" } false = true
    ∧ ({ emptyRule with Protocol := "HTTPS" } : JsonRule).matchProtocol exEnv exReq false = false :=
  ⟨by decide, Or.inl (by decide),
    ((matchProtocol_spec exEnv { emptyRule with Protocol := "HTTPS" }
      { exReq with Method := "connect" } false).1 (by decide)).1 (Or.inl (by decide)),
    by decide, by decide⟩

/-! ### Resolution of the fixed names -/

theorem adjustProxyName_GAE (E : Env) (h : E.namesDistinct) (b : Bool) :
    adjustProxyName E E.GAE_NAME b = E.GAE_NAME := by
  obtain ⟨hf, -⟩ := h
  simp only [foldDistinct, List.all_cons, List.all_nil, Bool.and_true, Bool.and_eq_true,
    Bool.not_eq_true'] at hf
  unfold adjustProxyName
  cases hr : E.EqualFold E.GAE_NAME E.GAE_NAME <;> simp [hf, hr]

theorem adjustProxyName_C4 (E : Env) (h : E.namesDistinct) (b : Bool) :
    adjustProxyName E E.C4_NAME b = E.C4_NAME := by
  obtain ⟨hf, -⟩ := h
  simp only [foldDistinct, List.all_cons, List.all_nil, Bool.and_true, Bool.and_eq_true,
    Bool.not_eq_true'] at hf
  unfold adjustProxyName
  cases hr : E.EqualFold E.C4_NAME E.C4_NAME <;> simp [hf, hr]

theorem adjustProxyName_SSH (E : Env) (h : E.namesDistinct) (b : Bool) :
    adjustProxyName E E.SSH_NAME b = E.SSH_NAME := by
  obtain ⟨hf, -⟩ := h
  simp only [foldDistinct, List.all_cons, List.all_nil, Bool.and_true, Bool.and_eq_true,
    Bool.not_eq_true'] at hf
  unfold adjustProxyName
  cases hr : E.EqualFold E.SSH_NAME E.SSH_NAME <;> simp [hf, hr]

theorem adjustProxyName_DIRECT (E : Env) (h : E.namesDistinct) (b : Bool) :
    adjustProxyName E E.DIRECT_NAME b = E.DIRECT_NAME := by
  obtain ⟨hf, -⟩ := h
  simp only [foldDistinct, List.all_cons, List.all_nil, Bool.and_true, Bool.and_eq_true,
    Bool.not_eq_true'] at hf
  unfold adjustProxyName
  cases hr : E.EqualFold E.DIRECT_NAME E.DIRECT_NAME <;> simp [hf, hr]

theorem not_default_of_namesDistinct (E : Env) (h : E.namesDistinct) :
    E.EqualFold E.GAE_NAME E.DEFAULT_NAME = false
    ∧ E.EqualFold E.C4_NAME E.DEFAULT_NAME = false
    ∧ E.EqualFold E.SSH_NAME E.DEFAULT_NAME = false
    ∧ E.EqualFold E.DIRECT_NAME E.DEFAULT_NAME = false := by
  obtain ⟨hf, -⟩ := h
  simp only [foldDistinct, List.all_cons, List.all_nil, Bool.and_true, Bool.and_eq_true,
    Bool.not_eq_true'] at hf
  simp [hf]

theorem resolveProxyName_GAE (E : Env) (h : E.namesDistinct) (spac : SpacConfig) (req : Request)
    (b : Bool) :
    resolveProxyName E spac req b E.GAE_NAME
      = (match E.registedRemoteConnManager E.GAE_NAME with
          | some v => [v]
          | none => []) := by
  have hd := (not_default_of_namesDistinct E h).1
  simp [resolveProxyName, hd, adjustProxyName_GAE E h]

theorem resolveProxyName_C4 (E : Env) (h : E.namesDistinct) (spac : SpacConfig) (req : Request)
    (b : Bool) :
    resolveProxyName E spac req b E.C4_NAME
      = (match E.registedRemoteConnManager E.C4_NAME with
          | some v => [v]
          | none => []) := by
  have hd := (not_default_of_namesDistinct E h).2.1
  simp [resolveProxyName, hd, adjustProxyName_C4 E h]

theorem resolveProxyName_SSH (E : Env) (h : E.namesDistinct) (spac : SpacConfig) (req : Request)
    (b : Bool) :
    resolveProxyName E spac req b E.SSH_NAME
      = (match E.registedRemoteConnManager E.SSH_NAME with
          | some v => [v]
          | none => []) := by
  have hd := (not_default_of_namesDistinct E h).2.2.1
  simp [resolveProxyName, hd, adjustProxyName_SSH E h]

theorem resolveProxyName_DIRECT (E : Env) (h : E.namesDistinct) (spac : SpacConfig)
    (req : Request) (b : Bool) :
    resolveProxyName E spac req b E.DIRECT_NAME
      = [RemoteConnectionManager.forward { overProxy := false, target := directTarget req.Host }] := by
  have hd := (not_default_of_namesDistinct E h).2.2.2
  have hadj := adjustProxyName_DIRECT E h b
  obtain ⟨-, hn⟩ := h
  simp only [List.nodup_cons, List.mem_cons, List.mem_singleton, not_or, List.not_mem_nil,
    not_false_eq_true, List.nodup_nil, and_true] at hn
  obtain ⟨⟨-, -, -, -, h1⟩, ⟨-, -, -, h2⟩, ⟨-, -, h3⟩, ⟨-, h4⟩, h5⟩ := hn
  have e1 : (E.DIRECT_NAME == E.GAE_NAME) = false := by simpa using Ne.symm h1
  have e2 : (E.DIRECT_NAME == E.C4_NAME) = false := by simpa using Ne.symm h2
  have e3 : (E.DIRECT_NAME == E.SSH_NAME) = false := by simpa using Ne.symm h3
  have e4 : (E.DIRECT_NAME == E.GOOGLE_HTTP_NAME) = false := by simpa using Ne.symm h4
  have e5 : (E.DIRECT_NAME == E.GOOGLE_HTTPS_NAME) = false := by simpa using Ne.symm h5
  simp [resolveProxyName, hd, hadj, e1, e2, e3, e4, e5]

theorem exEnv_namesDistinct : exEnv.namesDistinct := by
  constructor
  · decide
  · decide

theorem containsAttr_setAttrs (tags : List String) (attr : String) (h : attr ∈ tags) :
    containsAttr (setAttrs [] tags) attr = true := by
  simp [containsAttr, lookup_setAttrs, h]

/-! ### C6 -/

/-- C6, as stated, fails: for the private host `192.168.1.5` on a connection
accepted on the GAE listener, `SelectProxy` returns the registered GAE manager,
not a direct `Forward` handle. -/
theorem SelectProxy_private_counterexample :
    exEnv.IsPrivateIP (hostPort exEnv exReqPrivate).1 = true
    ∧ SelectProxy exEnv { defaultRule := "GAE", rules := [] } exReqPrivate exConnGAE
      = { managers := some [RemoteConnectionManager.manager "gae"], attrs := some [],
          effects := [] }
    ∧ ¬ ∃ t : String,
        (SelectProxy exEnv { defaultRule := "GAE", rules := [] } exReqPrivate exConnGAE).managers
          = some [RemoteConnectionManager.forward { overProxy := false, target := t }] := by
  have hres : SelectProxy exEnv { defaultRule := "GAE", rules := [] } exReqPrivate exConnGAE
      = { managers := some [RemoteConnectionManager.manager "gae"], attrs := some [],
          effects := [] } := by decide
  refine ⟨by decide, hres, ?_⟩
  rintro ⟨t, ht⟩
  rw [hres] at ht
  simp at ht

/-- C6, amended: for a request whose host is a private address, that is not
directed at the proxy itself, on a connection whose `ProxyServerType` is none of
`GAE_PROXY_SERVER`, `C4_PROXY_SERVER`, `SSH_PROXY_SERVER`, `SelectProxy` returns,
for every rule set and default rule, exactly one direct `Forward` handle
(`overProxy` false) whose target is built from `req.Host`, with an empty attribute
map; no rule is evaluated and nothing else is called. -/
theorem SelectProxy_private_direct (E : Env) (hnames : E.namesDistinct) (req : Request)
    (conn : SessionConnection)
    (hpriv : E.IsPrivateIP (hostPort E req).1 = true)
    (hself : isSelfRequest E (hostPort E req).1 (hostPort E req).2 = false)
    (hconn : ∃ code, conn.ProxyServerType = ProxyServerType.other code) :
    ∀ spac : SpacConfig,
      SelectProxy E spac req conn
        = { managers := some [RemoteConnectionManager.forward
              { overProxy := false, target := directTarget req.Host }],
            attrs := some [], effects := [] } := by
  intro spac
  obtain ⟨code, hc⟩ := hconn
  unfold SelectProxy
  simp [hself, hpriv, hc, resolveProxyNames, resolveProxyName_DIRECT E hnames]

/-- Witness for amended C6: `192.168.1.5` on an ordinary listener, with a rule
that would match everything. -/
theorem SelectProxy_private_direct_witness :
    exEnv.IsPrivateIP (hostPort exEnv exReqPrivate).1 = true
    ∧ isSelfRequest exEnv (hostPort exEnv exReqPrivate).1 (hostPort exEnv exReqPrivate).2 = false
    ∧ SelectProxy exEnv { defaultRule := "GAE", rules := [exRuleAll] } exReqPrivate exConn
        = { managers := some [RemoteConnectionManager.forward
              { overProxy := false, target := directTarget exReqPrivate.Host }],
            attrs := some [], effects := [] }
    ∧ directTarget exReqPrivate.Host = "http://192.168.1.5:80" :=
  ⟨by decide, by decide,
    SelectProxy_private_direct exEnv exEnv_namesDistinct exReqPrivate exConn (by decide)
      (by decide) ⟨0, rfl⟩ { defaultRule := "GAE", rules := [exRuleAll] },
    by decide⟩

/-! ### C7 -/

/-- C7, as stated, fails: a plain-HTTP request that matches a rule tagged with
the HTTPS-redirect attribute, arriving on the GAE listener, is handed to the GAE
manager; nothing is redirected. -/
theorem SelectProxy_redirect_counterexample :
    exConnGAE.Type_ ≠ exEnv.HTTPS_TUNNEL
    ∧ exRuleRedirect.match exEnv exReq false = true
    ∧ exEnv.ATTR_REDIRECT_HTTPS ∈ exRuleRedirect.Attr
    ∧ SelectProxy exEnv { defaultRule := "GAE", rules := [exRuleRedirect] } exReq exConnGAE
      = { managers := some [RemoteConnectionManager.manager "gae"], attrs := some [],
          effects := [] }
    ∧ ¬ ((SelectProxy exEnv { defaultRule := "GAE", rules := [exRuleRedirect] } exReq
            exConnGAE).managers = none
        ∧ (SelectProxy exEnv { defaultRule := "GAE", rules := [exRuleRedirect] } exReq
            exConnGAE).effects.count (Effect.redirectHttps exReq) = 1) := by
  refine ⟨by decide, by decide, by decide, by decide, by decide⟩

/-- C7, amended: when rule-based selection runs (the host is not a private
address and the connection's `ProxyServerType` is none of `GAE_PROXY_SERVER`,
`C4_PROXY_SERVER`, `SSH_PROXY_SERVER`), the connection is not an HTTPS tunnel, and
the first rule that matches the request is tagged with `ATTR_REDIRECT_HTTPS`,
`SelectProxy` returns `nil, nil` and calls `redirectHttps` exactly once, and
nothing else. -/
theorem SelectProxy_redirect (E : Env) (spac : SpacConfig) (req : Request)
    (conn : SessionConnection) (pre : List JsonRule) (r : JsonRule) (post : List JsonRule)
    (hplain : conn.Type_ ≠ E.HTTPS_TUNNEL)
    (hpub : E.IsPrivateIP (hostPort E req).1 = false)
    (hconn : ∃ code, conn.ProxyServerType = ProxyServerType.other code)
    (hrules : spac.rules = pre ++ r :: post)
    (hpre : ∀ q ∈ pre, q.match E req false = false)
    (hr : r.match E req false = true)
    (htag : E.ATTR_REDIRECT_HTTPS ∈ r.Attr) :
    SelectProxy E spac req conn
      = { managers := none, attrs := none, effects := [Effect.redirectHttps req] } := by
  obtain ⟨code, hc⟩ := hconn
  have htun : (conn.Type_ == E.HTTPS_TUNNEL) = false := by simpa using hplain
  have hself : isSelfRequest E (hostPort E req).1 (hostPort E req).2 = false := by
    simp [isSelfRequest, hpub]
  have hsel := selectProxyByRequest_of_split E spac req (hostPort E req).1 (hostPort E req).2
    false [spac.defaultRule] pre r post hrules hpre hr
  unfold SelectProxy
  simp [hself, hpub, hc, htun, hsel, containsAttr_setAttrs r.Attr _ htag]

/-- Witness for amended C7. -/
theorem SelectProxy_redirect_witness :
    exConn.Type_ ≠ exEnv.HTTPS_TUNNEL
    ∧ exEnv.IsPrivateIP (hostPort exEnv exReq).1 = false
    ∧ SelectProxy exEnv { defaultRule := "GAE", rules := [exRuleA, exRuleRedirect] }
        { exReq with Method := "POST" } exConn
      = { managers := none, attrs := none,
          effects := [Effect.redirectHttps { exReq with Method := "POST" }] } :=
  ⟨by decide, by decide,
    SelectProxy_redirect exEnv { defaultRule := "GAE", rules := [exRuleA, exRuleRedirect] }
      { exReq with Method := "POST" } exConn [exRuleA] exRuleRedirect []
      (by decide) (by decide) ⟨0, rfl⟩ rfl (by decide) (by decide) (by decide)⟩

/-! ### C8 -/

/-- C8: for a request not directed at the proxy itself, on a connection whose
`ProxyServerType` is `GAE_PROXY_SERVER`, `C4_PROXY_SERVER` or `SSH_PROXY_SERVER`,
`SelectProxy` evaluates no rule: for every rule set (and default rule) the result
is the manager registered under `GAE_NAME`, `C4_NAME`, `SSH_NAME` respectively, or
the empty list when none is registered, with an empty attribute map, and no call
of `redirectHttps` (or of anything else). -/
theorem SelectProxy_listener_override (E : Env) (hnames : E.namesDistinct) (req : Request)
    (conn : SessionConnection)
    (hself : isSelfRequest E (hostPort E req).1 (hostPort E req).2 = false) :
    (conn.ProxyServerType = ProxyServerType.GAE_PROXY_SERVER →
      ∀ spac : SpacConfig, SelectProxy E spac req conn
        = { managers := some (match E.registedRemoteConnManager E.GAE_NAME with
                              | some v => [v]
                              | none => []),
            attrs := some [], effects := [] })
    ∧ (conn.ProxyServerType = ProxyServerType.C4_PROXY_SERVER →
      ∀ spac : SpacConfig, SelectProxy E spac req conn
        = { managers := some (match E.registedRemoteConnManager E.C4_NAME with
                              | some v => [v]
                              | none => []),
            attrs := some [], effects := [] })
    ∧ (conn.ProxyServerType = ProxyServerType.SSH_PROXY_SERVER →
      ∀ spac : SpacConfig, SelectProxy E spac req conn
        = { managers := some (match E.registedRemoteConnManager E.SSH_NAME with
                              | some v => [v]
                              | none => []),
            attrs := some [], effects := [] }) := by
  refine ⟨?_, ?_, ?_⟩
  · intro hc spac
    unfold SelectProxy
    simp [hself, hc, resolveProxyNames, resolveProxyName_GAE E hnames]
  · intro hc spac
    unfold SelectProxy
    simp [hself, hc, resolveProxyNames, resolveProxyName_C4 E hnames]
  · intro hc spac
    unfold SelectProxy
    simp [hself, hc, resolveProxyNames, resolveProxyName_SSH E hnames]

/-- Witness for C8: on the GAE listener a redirect rule changes nothing; on the
C4 listener, with no C4 manager registered, the result is empty. -/
theorem SelectProxy_listener_override_witness :
    isSelfRequest exEnv (hostPort exEnv exReq).1 (hostPort exEnv exReq).2 = false
    ∧ SelectProxy exEnv { defaultRule := "GAE", rules := [exRuleRedirect] } exReq exConnGAE
        = { managers := some (match exEnv.registedRemoteConnManager exEnv.GAE_NAME with
                              | some v => [v]
                              | none => []),
            attrs := some [], effects := [] }
    ∧ SelectProxy exEnv { defaultRule := "GAE", rules := [exRuleRedirect] } exReq
        { Type_ := 1, ProxyServerType := .C4_PROXY_SERVER }
        = { managers := some [], attrs := some [], effects := [] } :=
  ⟨by decide,
    (SelectProxy_listener_override exEnv exEnv_namesDistinct exReq exConnGAE (by decide)).1 rfl
      { defaultRule := "GAE", rules := [exRuleRedirect] },
    by decide⟩

/-! ### The list translator -/

theorem hasSuffix_append (x : List Char) (suf : String) :
    HasSuffix ⟨x ++ suf.data⟩ suf = true := by
  unfold HasSuffix
  simp only [List.reverse_append]
  rw [List.isPrefixOf_iff_prefix]
  exact List.prefix_append _ _

theorem returnsDefault_jsLineOf (js : List Char) :
    returnsDefault (jsLineOf js "DEFAULT") = true := by
  have h : jsLineOf js "DEFAULT"
      = ⟨("if(/".data ++ js ++ "/i.test(url))".data) ++ " return DEFAULT;".data⟩ := by
    simp [jsLineOf]
  rw [returnsDefault, h]
  exact hasSuffix_append _ _

theorem returnsProxy_jsLineOf (js : List Char) :
    returnsProxy (jsLineOf js "PROXY") = true := by
  have h : jsLineOf js "PROXY"
      = ⟨("if(/".data ++ js ++ "/i.test(url))".data) ++ " return PROXY;".data⟩ := by
    simp [jsLineOf]
  rw [returnsProxy, h]
  exact hasSuffix_append _ _

theorem not_returnsProxy_of_returnsDefault (l : String) (h : returnsDefault l = true) :
    returnsProxy l = false := by
  unfold returnsDefault HasSuffix at h
  unfold returnsProxy HasSuffix
  have h1 : " return DEFAULT;".data.reverse = ';' :: 'T' :: " return DEFAUL".data.reverse := by
    decide
  have h2 : " return PROXY;".data.reverse = ';' :: 'Y' :: " return PROX".data.reverse := by
    decide
  rw [h1] at h
  rw [h2]
  rcases hr : l.data.reverse with _ | ⟨x, _ | ⟨y, rest⟩⟩
  · rw [hr] at h; simp [List.isPrefixOf] at h
  · rw [hr] at h; simp [List.isPrefixOf] at h
  · rw [hr] at h
    simp only [List.isPrefixOf, Bool.and_eq_true, beq_iff_eq] at h
    obtain ⟨-, hy, -⟩ := h
    subst hy
    simp [List.isPrefixOf]

theorem checkLine_ok (str : List Char) (proxyVar : String) (r : String × String)
    (h : checkLine str proxyVar = .ok r) :
    ∃ js, r = (proxyVar, jsLineOf js proxyVar) := by
  unfold checkLine at h
  split at h
  · split at h
    · injection h with h
      exact ⟨_, h.symm⟩
    · cases h
  · injection h with h
    exact ⟨_, h.symm⟩

theorem translateLine_cases (line : List Char) (proxyVar jsLine : String)
    (h : translateLine line = .ok (some (proxyVar, jsLine))) :
    (proxyVar = "DEFAULT" ∧ returnsDefault jsLine = true)
    ∨ (proxyVar = "PROXY" ∧ returnsProxy jsLine = true) := by
  unfold translateLine at h
  simp only at h
  split at h
  · cases h
  · split at h
    · rename_i r hr
      injection h with h
      injection h with h
      subst h
      split at hr
      · obtain ⟨js, hjs⟩ := checkLine_ok _ _ _ hr
        injection hjs with h1 h2
        subst h1; subst h2
        exact Or.inl ⟨rfl, returnsDefault_jsLineOf _⟩
      · obtain ⟨js, hjs⟩ := checkLine_ok _ _ _ hr
        injection hjs with h1 h2
        subst h1; subst h2
        exact Or.inr ⟨rfl, returnsProxy_jsLineOf _⟩
    · cases h

/-- The shape of `jscode` kept by the loop: allow lines, then block lines. -/
theorem pacLoop_allow_then_block (lines : List (List Char)) :
    ∀ (i : Nat) (allow block out : List String),
      (∀ l ∈ allow, returnsDefault l = true) → (∀ l ∈ block, returnsProxy l = true) →
      pacLoop lines i (allow ++ block) = .ok out →
      ∃ allow1 block1, out = allow1 ++ block1
        ∧ (∀ l ∈ allow1, returnsDefault l = true) ∧ (∀ l ∈ block1, returnsProxy l = true) := by
  induction lines with
  | nil =>
    intro i allow block out ha hb h
    simp only [pacLoop] at h
    injection h with h
    exact ⟨allow, block, h.symm, ha, hb⟩
  | cons line rest ih =>
    intro i allow block out ha hb h
    unfold pacLoop at h
    split at h
    · exact ih _ allow block out ha hb h
    · split at h
      · cases h
      · exact ih _ allow block out ha hb h
      · rename_i proxyVar jsLine htl
        rcases translateLine_cases line proxyVar jsLine htl with ⟨hp, hd⟩ | ⟨hp, hd⟩
        · subst hp
          simp only [beq_self_eq_true, if_true] at h
          have h2 : pacLoop rest (i + 1) ((jsLine :: allow) ++ block) = .ok out := by
            simpa using h
          refine ih _ (jsLine :: allow) block out ?_ hb h2
          intro l hl
          rcases List.mem_cons.mp hl with rfl | hl
          · exact hd
          · exact ha l hl
        · subst hp
          have hne : ("PROXY" == "DEFAULT") = false := by decide
          simp only [hne] at h
          have h2 : pacLoop rest (i + 1) (allow ++ (block ++ [jsLine])) = .ok out := by
            simpa [List.append_assoc] using h
          refine ih _ allow (block ++ [jsLine]) out ha ?_ h2
          intro l hl
          rcases List.mem_append.mp hl with hl | hl
          · exact hb l hl
          · rw [List.mem_singleton.mp hl]; exact hd

theorem not_returnsDefault_of_returnsProxy (l : String) (h : returnsProxy l = true) :
    returnsDefault l = false := by
  cases hd : returnsDefault l with
  | false => rfl
  | true =>
    rw [not_returnsProxy_of_returnsDefault l hd] at h
    cases h

theorem matchHere_backslash_bot (atStart : Bool) (s : List Char) :
    matchHere [Atom.lit '\\', Atom.bot] atStart s = none := by
  cases s with
  | nil => rfl
  | cons x xs =>
    by_cases hx : (x == '\\') = true
    · simp [matchHere, hx]
    · simp [matchHere, hx]

theorem replaceFrom_backslash_bot (repl : List Char → List Char) (s : List Char) :
    ∀ (limit : Option Nat) (atStart : Bool),
      replaceFrom [Atom.lit '\\', Atom.bot] repl limit atStart 0 s = s := by
  induction s with
  | nil => intro limit atStart; rfl
  | cons x xs ih =>
    intro limit atStart
    unfold replaceFrom
    split
    · rfl
    · rw [matchHere_backslash_bot]
      simp only
      rw [ih]

/-! ### C9 -/

/-- C9: in the rule code of `generatePAC` (the final `jscode`, joined into the
script), every check line that returns `DEFAULT` comes before every check line
that returns `PROXY`, whatever the order of the lines in the list: `jscode` is a
run of allow lines followed by a run of block lines. -/
theorem generatePAC_allow_before_block (content : String) (usercontent : Option String)
    (jscode : List String) (h : pacRuleLines content usercontent = .ok jscode) :
    (∃ allow block, jscode = allow ++ block
      ∧ (∀ l ∈ allow, returnsDefault l = true ∧ returnsProxy l = false)
      ∧ (∀ l ∈ block, returnsProxy l = true ∧ returnsDefault l = false))
    ∧ (∀ (i j : Nat) (hi : i < jscode.length) (hj : j < jscode.length),
        returnsDefault (jscode.get ⟨i, hi⟩) = true →
        returnsProxy (jscode.get ⟨j, hj⟩) = true → i < j)
    ∧ (∀ pac_proxy url date : String, ∃ head tail : String,
        generatePAC pac_proxy usercontent url date content
          = .ok (head ++ Join jscode "\r\n\t" ++ tail)) := by
  unfold pacRuleLines at h
  split at h
  · cases h
  · rename_i lines hlines
    obtain ⟨allow, block, hout, ha, hb⟩ :=
      pacLoop_allow_then_block lines 0 [] [] jscode (by simp) (by simp) (by simpa using h)
    refine ⟨⟨allow, block, hout, ?_, ?_⟩, ?_, ?_⟩
    · intro l hl
      exact ⟨ha l hl, not_returnsProxy_of_returnsDefault l (ha l hl)⟩
    · intro l hl
      exact ⟨hb l hl, not_returnsDefault_of_returnsProxy l (hb l hl)⟩
    · intro i j hi hj hdi hpj
      subst hout
      have hi1 : i < allow.length := by
        by_contra hge
        have hge : allow.length ≤ i := Nat.le_of_not_lt hge
        have hmem : (allow ++ block).get ⟨i, hi⟩ ∈ block := by
          simp only [List.get_eq_getElem]
          rw [List.getElem_append_right hge]
          exact List.getElem_mem _
        rw [not_returnsDefault_of_returnsProxy _ (hb _ hmem)] at hdi
        cases hdi
      have hj1 : allow.length ≤ j := by
        by_contra hlt
        have hlt : j < allow.length := Nat.lt_of_not_le hlt
        have hmem : (allow ++ block).get ⟨j, hj⟩ ∈ allow := by
          simp only [List.get_eq_getElem]
          rw [List.getElem_append_left hlt]
          exact List.getElem_mem _
        rw [not_returnsProxy_of_returnsDefault _ (ha _ hmem)] at hpj
        cases hpj
      omega
    · intro pac_proxy url date
      have hp : pacRuleLines content usercontent = .ok jscode := by
        unfold pacRuleLines
        rw [hlines]
        exact h
      unfold generatePAC
      rw [hp]
      exact ⟨_, _, rfl⟩

/-- Witness for C9: a block line for `*.example.com` followed by an allow line
`@@safe.example.com` emits the allow check first. -/
theorem generatePAC_allow_before_block_witness :
    pacRuleLines "[AutoProxy]\n*.example.com\n@@safe.example.com" none
      = .ok ["if(/safe\\.example\\.com/i.test(url)) return DEFAULT;",
             "if(/\\.example\\.com/i.test(url)) return PROXY;"]
    ∧ ∀ (i j : Nat)
        (hi : i < ["if(/safe\\.example\\.com/i.test(url)) return DEFAULT;",
                   "if(/\\.example\\.com/i.test(url)) return PROXY;"].length)
        (hj : j < ["if(/safe\\.example\\.com/i.test(url)) return DEFAULT;",
                   "if(/\\.example\\.com/i.test(url)) return PROXY;"].length),
        returnsDefault (["if(/safe\\.example\\.com/i.test(url)) return DEFAULT;",
                   "if(/\\.example\\.com/i.test(url)) return PROXY;"].get ⟨i, hi⟩) = true →
        returnsProxy (["if(/safe\\.example\\.com/i.test(url)) return DEFAULT;",
                   "if(/\\.example\\.com/i.test(url)) return PROXY;"].get ⟨j, hj⟩) = true →
        i < j :=
  ⟨by decide,
    (generatePAC_allow_before_block "[AutoProxy]\n*.example.com\n@@safe.example.com" none _
      (by decide)).2.1⟩

/-! ### C10 -/

/-- C10 fails on the code: the pattern `"\\\\^"` of spac.go:271 is a backslash
followed by the beginning-of-text assertion, which matches nowhere, so the
replacement by the separator class never happens and every escaped caret stays;
the line `||example.com^` yields an expression that ends in `\^`. -/
theorem globToRegexp_escaped_caret_kept :
    Compile "\\\\^" = some [Atom.lit '\\', Atom.bot]
    ∧ (∀ (s : List Char) (repl : String),
        ReplaceAllString [Atom.lit '\\', Atom.bot] s repl = s)
    ∧ String.mk (globToRegexp "||example.com^".data)
        = "^[\\w\\-]+:\\/+(?!\\/)(?:[^\\/]+\\.)?example\\.com\\^"
    ∧ containsChars (globToRegexp "||example.com^".data) "\\^".data = true
    ∧ pacRuleLines "[AutoProxy]\n||example.com^" none
        = .ok ["if(/^[\\w\\-]+:\\/+(?!\\/)(?:[^\\/]+\\.)?example\\.com\\^/i.test(url)) return PROXY;"] := by
  refine ⟨by decide, ?_, by decide, by decide, by decide⟩
  intro s repl
  exact replaceFrom_backslash_bot _ s none true

/-! ### Lines of the form `/X/` in the loop body -/

theorem checkLine_slashes (X : List Char) (proxyVar : String) :
    checkLine ('/' :: (X ++ ['/'])) proxyVar = .ok (proxyVar, jsLineOf X proxyVar) := by
  have hp : "/".data = ['/'] := rfl
  have hlen : ('/' :: (X ++ ['/'])).length = X.length + 2 := by simp
  unfold checkLine
  rw [hp, hlen]
  simp [List.isPrefixOf]

/-- The loop body on a line that, after trimming and after removing an optional
`@@` prefix, has the form `/X/`: the check line holds `X` verbatim, and one step
of the loop after the first line adds it to `jscode`. -/
theorem translateLine_regex_line (line X : List Char) :
    (trimSpaceChars line = '/' :: (X ++ ['/']) →
      translateLine line
          = .ok (some ("PROXY", ⟨"if(/".data ++ X ++ "/i.test(url)) return PROXY;".data⟩))
        ∧ ∀ (rest : List (List Char)) (i : Nat) (jscode : List String),
            pacLoop (line :: rest) (i + 1) jscode
              = pacLoop rest (i + 2)
                  (jscode ++ [⟨"if(/".data ++ X ++ "/i.test(url)) return PROXY;".data⟩]))
    ∧ (trimSpaceChars line = '@' :: '@' :: '/' :: (X ++ ['/']) →
      translateLine line
          = .ok (some ("DEFAULT", ⟨"if(/".data ++ X ++ "/i.test(url)) return DEFAULT;".data⟩))
        ∧ ∀ (rest : List (List Char)) (i : Nat) (jscode : List String),
            pacLoop (line :: rest) (i + 1) jscode
              = pacLoop rest (i + 2)
                  (⟨"if(/".data ++ X ++ "/i.test(url)) return DEFAULT;".data⟩ :: jscode)) := by
  have hb : "!".data = ['!'] := rfl
  have ha : "@@".data = ['@', '@'] := rfl
  constructor
  · intro ht
    have h1 : translateLine line
        = .ok (some ("PROXY", ⟨"if(/".data ++ X ++ "/i.test(url)) return PROXY;".data⟩)) := by
      unfold translateLine
      simp only [ht, hb, ha]
      rw [checkLine_slashes]
      simp [List.isPrefixOf, jsLineOf]
    refine ⟨h1, ?_⟩
    intro rest i jscode
    rw [pacLoop, h1]
    simp
  · intro ht
    have h1 : translateLine line
        = .ok (some ("DEFAULT", ⟨"if(/".data ++ X ++ "/i.test(url)) return DEFAULT;".data⟩)) := by
      unfold translateLine
      simp only [ht, hb, ha]
      have hd : List.drop 2 ('@' :: '@' :: '/' :: (X ++ ['/'])) = '/' :: (X ++ ['/']) := rfl
      simp only [hd, checkLine_slashes]
      simp [List.isPrefixOf, jsLineOf]
    refine ⟨h1, ?_⟩
    intro rest i jscode
    rw [pacLoop, h1]
    simp

/-! ### C20 -/

/-- C20 fails on the code: the one-character line `/` both starts and ends with
`/`, so spac.go:257 evaluates `str[1 : len(str)-1]` with `len(str) = 1`, a slice
with lower bound 1 and upper bound 0, and `generatePAC` panics; the same holds for
`@@/`. -/
theorem generatePAC_single_slash_panics :
    ("/".data.isPrefixOf "/".data && "/".data.reverse.isPrefixOf "/".data.reverse) = true
    ∧ ¬ (1 ≤ "/".data.length - 1)
    ∧ translateLine "/".data = .error PacFailure.panicSliceBounds
    ∧ translateLine "@@/".data = .error PacFailure.panicSliceBounds
    ∧ pacRuleLines "[AutoProxy]\n/" none = .error PacFailure.panicSliceBounds
    ∧ pacRuleLines "[AutoProxy]\n@@/" none = .error PacFailure.panicSliceBounds
    ∧ generatePAC "127.0.0.1:48100" none "url" "date" "[AutoProxy]\n||a.b\n/\n||c.d"
        = .error PacFailure.panicSliceBounds := by
  refine ⟨by decide, by decide, by decide, by decide, by decide, by decide, by decide⟩

/-! ### C19 -/

/-- C19: for a request that no rule matches, when host lookup is enabled and
`lookupAvailableHostPort` confirms the host:port, `selectProxyByRequest` returns
the candidates `[DIRECT_NAME, spac.defaultRule]` and an attribute map whose only
possible key is `"CRLF"`, present exactly when the request method is not CONNECT
(ignoring case); when host lookup is disabled or the host is not confirmed, the
result is the fallback list and the empty attribute map. -/
theorem selectProxyByRequest_host_available (E : Env) (spac : SpacConfig) (req : Request)
    (host port : String) (isHttpsConn : Bool) (proxyNames : List String)
    (hno : ∀ r ∈ spac.rules, r.match E req isHttpsConn = false) :
    (E.hostsEnable ≠ E.HOSTS_DISABLE →
      (E.lookupAvailableHostPort req (E.JoinHostPort host port)).2 = true →
        (selectProxyByRequest E spac req host port isHttpsConn proxyNames).1
            = [E.DIRECT_NAME, spac.defaultRule]
        ∧ (containsAttr (selectProxyByRequest E spac req host port isHttpsConn proxyNames).2.1
              "CRLF" = true ↔ E.EqualFold req.Method "Connect" = false)
        ∧ (∀ k : String, k ≠ "CRLF" →
            List.lookup k (selectProxyByRequest E spac req host port isHttpsConn proxyNames).2.1
              = none))
    ∧ ((E.hostsEnable = E.HOSTS_DISABLE
          ∨ (E.lookupAvailableHostPort req (E.JoinHostPort host port)).2 = false) →
        (selectProxyByRequest E spac req host port isHttpsConn proxyNames).1 = proxyNames
        ∧ (selectProxyByRequest E spac req host port isHttpsConn proxyNames).2.1 = []) := by
  rw [selectProxyByRequest_no_match E spac req host port isHttpsConn proxyNames hno]
  constructor
  · intro hen hok
    have hb : (E.hostsEnable != E.HOSTS_DISABLE) = true := by simpa using hen
    simp only [hb, hok, if_true]
    refine ⟨trivial, ?_, ?_⟩
    · cases hm : E.EqualFold req.Method "Connect" <;> simp [containsAttr, AttrMap.set, List.lookup]
    · intro k hk
      have hkb : (k == "CRLF") = false := by simpa using hk
      cases hm : E.EqualFold req.Method "Connect" <;> simp [AttrMap.set, List.lookup, hkb]
  · intro h
    rcases h with hd | hl
    · simp [hd]
    · by_cases hb : (E.hostsEnable != E.HOSTS_DISABLE) = true
      · simp [hb, hl]
      · simp [hb]

/-- Witness for C19: a `GET` and a `CONNECT` request for a confirmed host. -/
theorem selectProxyByRequest_host_available_witness :
    (∀ r ∈ [exRuleA], r.match exEnv exReqOpen false = false)
    ∧ exEnv.hostsEnable ≠ exEnv.HOSTS_DISABLE
    ∧ (exEnv.lookupAvailableHostPort exReqOpen (exEnv.JoinHostPort "open.example" "80")).2 = true
    ∧ ((selectProxyByRequest exEnv { defaultRule := "GAE", rules := [exRuleA] } exReqOpen
          "open.example" "80" false ["C4"]).1 = [exEnv.DIRECT_NAME, "GAE"]
      ∧ (containsAttr (selectProxyByRequest exEnv { defaultRule := "GAE", rules := [exRuleA] }
            exReqOpen "open.example" "80" false ["C4"]).2.1 "CRLF" = true
          ↔ exEnv.EqualFold exReqOpen.Method "Connect" = false)
      ∧ (∀ k : String, k ≠ "CRLF" →
          List.lookup k (selectProxyByRequest exEnv { defaultRule := "GAE", rules := [exRuleA] }
            exReqOpen "open.example" "80" false ["C4"]).2.1 = none))
    ∧ selectProxyByRequest exEnv { defaultRule := "GAE", rules := [exRuleA] }
        { exReqOpen with Method := "CONNECT" } "open.example" "80" false ["C4"]
      = (["Direct", "GAE"], [],
          [Effect.lookupAvailableHostPort { exReqOpen with Method := "CONNECT" }
            "open.example:80"]) :=
  ⟨by decide, by decide, by decide,
    (selectProxyByRequest_host_available exEnv { defaultRule := "GAE", rules := [exRuleA] }
      exReqOpen "open.example" "80" false ["C4"] (by decide)).1 (by decide) (by decide),
    by decide⟩

/-! ### C16 -/

theorem resolveProxyNames_eq (E : Env) (spac : SpacConfig) (req : Request) (b : Bool)
    (names : List String) :
    ∀ acc : List RemoteConnectionManager,
      resolveProxyNames E spac req b acc names
        = acc ++ (names.map (resolveProxyName E spac req b)).flatten := by
  induction names with
  | nil => intro acc; simp [resolveProxyNames]
  | cons n rest ih =>
    intro acc
    simp [resolveProxyNames, ih, List.append_assoc]

theorem resolveProxyName_length (E : Env) (spac : SpacConfig) (req : Request) (b : Bool)
    (name : String) : (resolveProxyName E spac req b name).length ≤ 1 := by
  unfold resolveProxyName
  simp only
  repeat' split
  all_goals simp

theorem SelectProxy_managers (E : Env) (spac : SpacConfig) (req : Request)
    (conn : SessionConnection) :
    (SelectProxy E spac req conn).managers = none
    ∨ ∃ names : List String,
        (SelectProxy E spac req conn).managers
          = some (resolveProxyNames E spac req (conn.Type_ == E.HTTPS_TUNNEL) [] names) := by
  unfold SelectProxy
  simp only
  split_ifs <;> first | exact Or.inl rfl | exact Or.inr ⟨_, rfl⟩

/-- C16: the resolution loop of `SelectProxy` goes through the candidate names in
order and appends at most one handle per candidate, so the handles returned follow
the candidates' order; a `GAE_NAME`, `C4_NAME` or `SSH_NAME` candidate contributes
exactly the manager registered under that name, or nothing when there is none, and
in both cases the candidates after it are resolved as they would be without it. -/
theorem SelectProxy_resolution_loop (E : Env) (spac : SpacConfig) (req : Request) (b : Bool) :
    (∀ names : List String,
      resolveProxyNames E spac req b [] names
        = (names.map (resolveProxyName E spac req b)).flatten)
    ∧ (∀ name : String, (resolveProxyName E spac req b name).length ≤ 1)
    ∧ (∀ (pre post : List String) (name : String),
        resolveProxyNames E spac req b [] (pre ++ name :: post)
          = resolveProxyNames E spac req b [] pre ++ resolveProxyName E spac req b name
            ++ resolveProxyNames E spac req b [] post)
    ∧ (E.namesDistinct → ∀ name ∈ [E.GAE_NAME, E.C4_NAME, E.SSH_NAME],
        resolveProxyName E spac req b name
          = (match E.registedRemoteConnManager name with
              | some v => [v]
              | none => []))
    ∧ (∀ (conn : SessionConnection) (ms : List RemoteConnectionManager),
        (SelectProxy E spac req conn).managers = some ms →
        ∃ names : List String,
          ms = (names.map
                (resolveProxyName E spac req (conn.Type_ == E.HTTPS_TUNNEL))).flatten) := by
  refine ⟨?_, resolveProxyName_length E spac req b, ?_, ?_, ?_⟩
  · intro names
    simpa using resolveProxyNames_eq E spac req b names []
  · intro pre post name
    simp [resolveProxyNames_eq, List.append_assoc]
  · intro hn name hmem
    simp only [List.mem_cons, List.mem_singleton, List.not_mem_nil, or_false] at hmem
    rcases hmem with rfl | rfl | rfl
    · exact resolveProxyName_GAE E hn spac req b
    · exact resolveProxyName_C4 E hn spac req b
    · exact resolveProxyName_SSH E hn spac req b
  · intro conn ms h
    rcases SelectProxy_managers E spac req conn with hnone | ⟨names, hsome⟩
    · rw [hnone] at h; cases h
    · rw [hsome] at h
      injection h with h
      exact ⟨names, by rw [← h, resolveProxyNames_eq]; simp⟩

/-- Witness for C16: `C4` has no registered manager and is dropped, `GAE` before
it and `Direct` after it are resolved. -/
theorem SelectProxy_resolution_loop_witness :
    exEnv.namesDistinct
    ∧ resolveProxyNames exEnv { defaultRule := "GAE", rules := [] } exReq false []
        ["GAE", "C4", "Direct"]
      = [RemoteConnectionManager.manager "gae",
         RemoteConnectionManager.forward { overProxy := false, target := "http://a.example:80" }]
    ∧ ∀ name ∈ [exEnv.GAE_NAME, exEnv.C4_NAME, exEnv.SSH_NAME],
        resolveProxyName exEnv { defaultRule := "GAE", rules := [] } exReq false name
          = (match exEnv.registedRemoteConnManager name with
              | some v => [v]
              | none => []) :=
  ⟨exEnv_namesDistinct, by decide,
    (SelectProxy_resolution_loop exEnv { defaultRule := "GAE", rules := [] } exReq false).2.2.2.1
      exEnv_namesDistinct⟩

/-! ### C17 -/

theorem containsChars_cons_mem (c : Char) (sub s : List Char)
    (h : containsChars s (c :: sub) = true) : c ∈ s := by
  induction s with
  | nil => simp [containsChars] at h
  | cons x xs ih =>
    simp only [containsChars, Bool.or_eq_true] at h
    rcases h with h | h
    · simp only [List.isPrefixOf, Bool.and_eq_true, beq_iff_eq] at h
      rw [h.1]
      exact List.mem_cons_self _ _
    · exact List.mem_cons_of_mem _ (ih h)

theorem containsChars_singleton_of_mem (c : Char) (s : List Char) (h : c ∈ s) :
    containsChars s [c] = true := by
  induction s with
  | nil => cases h
  | cons x xs ih =>
    by_cases hx : c = x
    · subst hx
      simp [containsChars, List.isPrefixOf]
    · have hm : c ∈ xs := by
        rcases List.mem_cons.mp h with h | h
        · exact absurd h hx
        · exact h
      simp [containsChars, ih hm]

theorem containsChars_port_suffix (h : List Char) (hc : ':' ∉ h) :
    containsChars (h ++ [':', '8', '0']) [':', '/', '/'] = false := by
  induction h with
  | nil => decide
  | cons x xs ih =>
    have hx : ¬ (':' = x) := fun e => hc (e ▸ List.mem_cons_self _ _)
    have hxs : ':' ∉ xs := fun m => hc (List.mem_cons_of_mem _ m)
    simp [containsChars, List.isPrefixOf, hx, ih hxs]

theorem containsChars_http (t : List Char) :
    containsChars ('h' :: 't' :: 't' :: 'p' :: ':' :: '/' :: '/' :: t) [':', '/', '/'] = true := by
  simp [containsChars, List.isPrefixOf]

theorem splitLastColon_none (p : List Char) (hp : ':' ∉ p) : splitLastColon p = none := by
  induction p with
  | nil => rfl
  | cons x xs ih =>
    have hx : ¬ (x = ':') := fun e => hp (e ▸ List.mem_cons_self _ _)
    have hxs : ':' ∉ xs := fun m => hp (List.mem_cons_of_mem _ m)
    simp [splitLastColon, ih hxs, hx]

theorem splitLastColon_append (pre s h p : List Char) (hs : splitLastColon s = some (h, p)) :
    splitLastColon (pre ++ s) = some (pre ++ h, p) := by
  induction pre with
  | nil => simpa using hs
  | cons x xs ih => simp [splitLastColon, ih]

theorem splitLastColon_port (a p : List Char) (hp : ':' ∉ p) :
    splitLastColon (a ++ ':' :: p) = some (a, p) := by
  have h0 : splitLastColon (':' :: p) = some ([], p) := by
    simp [splitLastColon, splitLastColon_none p hp]
  simpa using splitLastColon_append a (':' :: p) [] p h0

theorem carriesPort_prepend (pre s : String) (h : carriesPort s = true) :
    carriesPort (pre ++ s) = true := by
  unfold carriesPort at h ⊢
  cases hs : splitLastColon s.data with
  | none => rw [hs] at h; cases h
  | some hp =>
    obtain ⟨a, p⟩ := hp
    rw [hs] at h
    have : splitLastColon (pre ++ s).data = some (pre.data ++ a, p) := by
      rw [String.data_append]
      exact splitLastColon_append pre.data s.data a p hs
    rw [this]
    exact h

theorem carriesPort_default_port (s : String) : carriesPort (s ++ ":80") = true := by
  unfold carriesPort
  have : splitLastColon (s ++ ":80").data = some (s.data, ['8', '0']) := by
    rw [String.data_append]
    exact splitLastColon_port s.data ['8', '0'] (by decide)
  rw [this]
  have hd : (!(['8', '0'] : List Char).isEmpty && (['8', '0'] : List Char).all Char.isDigit)
      = true := by decide
  exact hd

/-- C17, as stated, fails: the host `[::1]` (an IPv6 literal) has no port, yet the
handle built for `DIRECT_NAME` gets the target `http://[::1]`, not
`http://[::1]:80`, and that target contains no port. -/
theorem directTarget_counterexample :
    carriesPort "[::1]" = false
    ∧ resolveProxyName exEnv { defaultRule := "GAE", rules := [] }
        { exReq with Host := "[::1]" } false exEnv.DIRECT_NAME
      = [RemoteConnectionManager.forward { overProxy := false, target := "http://[::1]" }]
    ∧ directTarget "[::1]" ≠ "http://" ++ "[::1]" ++ ":80"
    ∧ carriesPort (directTarget "[::1]") = false := by
  refine ⟨by decide, by decide, by decide, by decide⟩

/-- C17, amended: the handle `SelectProxy` builds for the `DIRECT_NAME` candidate
has `overProxy` false and a target derived from `req.Host` by two substring
tests: when `req.Host` contains no `:` the target is
`"http://" + req.Host + ":80"`; when it contains a `:` but no `://` the target is
`"http://" + req.Host`; when it contains `://` the target is `req.Host` itself.
The target always contains `://`, and it ends in a port whenever `req.Host`
contains no `:` or itself ends in a port. -/
theorem directTarget_spec (E : Env) (hnames : E.namesDistinct) (spac : SpacConfig)
    (req : Request) (isHttpsConn : Bool) :
    resolveProxyName E spac req isHttpsConn E.DIRECT_NAME
      = [RemoteConnectionManager.forward
          { overProxy := false, target := directTarget req.Host }]
    ∧ (Contains req.Host ":" = false → directTarget req.Host = "http://" ++ req.Host ++ ":80")
    ∧ (Contains req.Host ":" = true → Contains req.Host "://" = false →
        directTarget req.Host = "http://" ++ req.Host)
    ∧ (Contains req.Host "://" = true → directTarget req.Host = req.Host)
    ∧ Contains (directTarget req.Host) "://" = true
    ∧ (Contains req.Host ":" = false → carriesPort (directTarget req.Host) = true)
    ∧ (carriesPort req.Host = true → carriesPort (directTarget req.Host) = true) := by
  have hcolon : ":".data = [':'] := rfl
  have hsep : "://".data = [':', '/', '/'] := rfl
  have hport : ":80".data = [':', '8', '0'] := rfl
  have hnocolon : Contains req.Host ":" = false →
      directTarget req.Host = "http://" ++ (req.Host ++ ":80") := by
    intro h
    have hmem : ':' ∉ req.Host.data := by
      intro hm
      have := containsChars_singleton_of_mem ':' req.Host.data hm
      rw [Contains, hcolon, this] at h
      cases h
    have h2 : Contains (req.Host ++ ":80") "://" = false := by
      rw [Contains, String.data_append, hsep, hport]
      exact containsChars_port_suffix _ hmem
    simp [directTarget, h, h2]
  have hsepcolon : Contains req.Host "://" = true → Contains req.Host ":" = true := by
    intro h
    rw [Contains, hsep] at h
    rw [Contains, hcolon]
    exact containsChars_singleton_of_mem _ _ (containsChars_cons_mem _ _ _ h)
  have hhttp : ∀ t : String, Contains ("http://" ++ t) "://" = true := by
    intro t
    rw [Contains, String.data_append, hsep]
    exact containsChars_http t.data
  refine ⟨resolveProxyName_DIRECT E hnames spac req isHttpsConn, ?_, ?_, ?_, ?_, ?_, ?_⟩
  · intro h
    rw [hnocolon h, String.append_assoc]
  · intro h1 h2
    simp [directTarget, h1, h2]
  · intro h
    simp [directTarget, hsepcolon h, h]
  · cases h1 : Contains req.Host ":" with
    | false => rw [hnocolon h1]; exact hhttp _
    | true =>
      cases h2 : Contains req.Host "://" with
      | false =>
        have : directTarget req.Host = "http://" ++ req.Host := by simp [directTarget, h1, h2]
        rw [this]; exact hhttp _
      | true =>
        have : directTarget req.Host = req.Host := by simp [directTarget, h1, h2]
        rw [this]; exact h2
  · intro h
    rw [hnocolon h]
    exact carriesPort_prepend _ _ (carriesPort_default_port _)
  · intro hp
    cases h1 : Contains req.Host ":" with
    | false =>
      rw [hnocolon h1]
      exact carriesPort_prepend _ _ (carriesPort_default_port _)
    | true =>
      cases h2 : Contains req.Host "://" with
      | false =>
        have : directTarget req.Host = "http://" ++ req.Host := by simp [directTarget, h1, h2]
        rw [this]; exact carriesPort_prepend _ _ hp
      | true =>
        have : directTarget req.Host = req.Host := by simp [directTarget, h1, h2]
        rw [this]; exact hp

/-- Witness for amended C17: a host without colon and a host with a port. -/
theorem directTarget_spec_witness :
    exEnv.namesDistinct
    ∧ Contains exReq.Host ":" = false
    ∧ directTarget exReq.Host = "http://" ++ exReq.Host ++ ":80"
    ∧ directTarget "a.example:8080" = "http://a.example:8080"
    ∧ directTarget "ftp://a.example" = "ftp://a.example" :=
  ⟨exEnv_namesDistinct, by decide,
    (directTarget_spec exEnv exEnv_namesDistinct { defaultRule := "GAE", rules := [] } exReq
      false).2.1 (by decide),
    by decide, by decide⟩

/-! ### C18 -/

theorem statLoop_modified (stats : List (Option Time)) :
    ∀ (mod_times : List Time) (modified : Bool),
      (statLoop stats mod_times modified).1 = true ↔
        (modified = true ∨ ∃ (i : Nat) (mt old : Time),
          stats[i]? = some (some mt) ∧ mod_times[i]? = some old ∧ old ≠ 0 ∧ old < mt) := by
  induction stats with
  | nil =>
    intro mod_times modified
    simp [statLoop]
  | cons st stats ih =>
    intro mod_times modified
    cases mod_times with
    | nil => cases st <;> simp [statLoop]
    | cons old mods =>
      cases st with
      | none =>
        simp only [statLoop, ih]
        constructor
        · rintro (h | ⟨i, mt, o, h1, h2, h3, h4⟩)
          · exact Or.inl h
          · exact Or.inr ⟨i + 1, mt, o, by simpa using h1, by simpa using h2, h3, h4⟩
        · rintro (h | ⟨i, mt, o, h1, h2, h3, h4⟩)
          · exact Or.inl h
          · cases i with
            | zero => simp at h1
            | succ j => exact Or.inr ⟨j, mt, o, by simpa using h1, by simpa using h2, h3, h4⟩
      | some mt0 =>
        simp only [statLoop, ih]
        constructor
        · rintro (h | ⟨i, mt, o, h1, h2, h3, h4⟩)
          · by_cases hc : (!(old == 0) && decide (old < mt0)) = true
            · simp only [Bool.and_eq_true, Bool.not_eq_true', beq_eq_false_iff_ne,
                decide_eq_true_eq] at hc
              exact Or.inr ⟨0, mt0, old, by simp, by simp, hc.1, hc.2⟩
            · simp only [hc] at h
              exact Or.inl (by simpa using h)
          · exact Or.inr ⟨i + 1, mt, o, by simpa using h1, by simpa using h2, h3, h4⟩
        · rintro (h | ⟨i, mt, o, h1, h2, h3, h4⟩)
          · left
            subst h
            simp
          · cases i with
            | zero =>
              simp only [List.getElem?_cons_zero, Option.some.injEq] at h1 h2
              subst h1; subst h2
              left
              have hc : (!(old == 0) && decide (old < mt0)) = true := by
                simp [h3, h4]
              simp [hc]
            | succ j => exact Or.inr ⟨j, mt, o, by simpa using h1, by simpa using h2, h3, h4⟩

theorem statLoop_times (stats : List (Option Time)) :
    ∀ (mod_times : List Time) (modified : Bool) (i : Nat),
      (statLoop stats mod_times modified).2[i]?
        = (match mod_times[i]?, stats[i]? with
            | none, _ => none
            | some _, some (some mt) => some mt
            | some old, _ => some old) := by
  induction stats with
  | nil =>
    intro mod_times modified i
    cases h : mod_times[i]? <;> simp [statLoop, h]
  | cons st stats ih =>
    intro mod_times modified i
    cases mod_times with
    | nil => cases st <;> simp [statLoop]
    | cons old mods =>
      cases st with
      | none =>
        cases i with
        | zero => simp [statLoop]
        | succ j => simp [statLoop, ih]
      | some mt0 =>
        cases i with
        | zero => simp [statLoop]
        | succ j => simp [statLoop, ih]

/-- C18: on a tick of `reloadSpacScript` a reload is triggered exactly when, for
some watched file, `os.Stat` succeeds, the file's slot of `mod_times` is non-zero
(a time was recorded on an earlier tick) and the recorded time is strictly before
the current one.  After the tick a slot holds the current time when the stat
succeeded and is unchanged when it failed.  Hence the first tick, where every
slot is zero, never triggers a reload, and neither does a file whose stat fails. -/
theorem reloadTick_spec (stats : List (Option Time)) (mod_times : List Time) :
    ((reloadTick stats mod_times).1 = true ↔
      ∃ (i : Nat) (mt old : Time),
        stats[i]? = some (some mt) ∧ mod_times[i]? = some old ∧ old ≠ 0 ∧ old < mt)
    ∧ (∀ i : Nat, (reloadTick stats mod_times).2[i]?
        = (match mod_times[i]?, stats[i]? with
            | none, _ => none
            | some _, some (some mt) => some mt
            | some old, _ => some old))
    ∧ (∀ (npaths : Nat) (later : List (List (Option Time))),
        reloadSpacScript npaths (stats :: later)
          = false :: reloadTicks later (reloadTick stats (List.replicate npaths 0)).2)
    ∧ ((∀ st ∈ stats, st = none) →
        (reloadTick stats mod_times).1 = false
        ∧ ∀ i : Nat, (reloadTick stats mod_times).2[i]? = mod_times[i]?) := by
  have hiff : (reloadTick stats mod_times).1 = true ↔
      ∃ (i : Nat) (mt old : Time),
        stats[i]? = some (some mt) ∧ mod_times[i]? = some old ∧ old ≠ 0 ∧ old < mt := by
    unfold reloadTick
    rw [statLoop_modified]
    simp
  refine ⟨hiff, ?_, ?_, ?_⟩
  · intro i
    exact statLoop_times stats mod_times false i
  · intro npaths later
    have hfirst : (reloadTick stats (List.replicate npaths 0)).1 = false := by
      cases h : (reloadTick stats (List.replicate npaths 0)).1 with
      | false => rfl
      | true =>
        have hiff0 := (statLoop_modified stats (List.replicate npaths 0) false).mp h
        rcases hiff0 with h0 | ⟨i, mt, old, -, h2, h3, -⟩
        · cases h0
        · exfalso
          apply h3
          have hmem : old ∈ List.replicate npaths 0 := List.getElem?_mem h2
          exact (List.mem_replicate.mp hmem).2
    simp [reloadSpacScript, reloadTicks, hfirst]
  · intro hnone
    constructor
    · cases h : (reloadTick stats mod_times).1 with
      | false => rfl
      | true =>
        obtain ⟨i, mt, old, h1, -⟩ := hiff.mp h
        have hmem : some mt ∈ stats := List.getElem?_mem h1
        cases hnone _ hmem
    · intro i
      rw [reloadTick, statLoop_times]
      cases hm : mod_times[i]? with
      | none => rfl
      | some old =>
        cases hs : stats[i]? with
        | none => rfl
        | some st =>
          have hmem : st ∈ stats := List.getElem?_mem hs
          rw [hnone st hmem]

/-- Witness for C18: two watched files over three ticks; the first tick records,
the second sees the first file changed, the third has a stat error. -/
theorem reloadTick_spec_witness :
    reloadSpacScript 2 [[some 10, some 20], [some 11, some 20], [none, some 20]]
      = [false, true, false]
    ∧ ((∀ st ∈ [none, none], st = (none : Option Time)) →
        (reloadTick [none, none] [10, 20]).1 = false
        ∧ ∀ i : Nat, (reloadTick [none, none] [10, 20]).2[i]? = [10, 20][i]?) :=
  ⟨by decide, (reloadTick_spec [none, none] [10, 20]).2.2.2⟩

/-! ### Loading the rule files -/

theorem initRegexSlice_error (E : Env) (pats : List String)
    (h : ∃ pat ∈ pats, ∃ e, E.PrepareRegexp pat true = .error e) :
    ∃ e, initRegexSlice E pats = .error e := by
  induction pats with
  | nil => obtain ⟨pat, hp, _⟩ := h; cases hp
  | cons p rest ih =>
    cases hp : E.PrepareRegexp p true with
    | error e => exact ⟨e, by simp [initRegexSlice, hp]⟩
    | ok reg =>
      have h2 : ∃ pat ∈ rest, ∃ e, E.PrepareRegexp pat true = .error e := by
        obtain ⟨pat, hm, e, he⟩ := h
        rcases List.mem_cons.mp hm with rfl | hm
        · rw [hp] at he; cases he
        · exact ⟨pat, hm, e, he⟩
      obtain ⟨e, he⟩ := ih h2
      exact ⟨e, by simp [initRegexSlice, hp, he]⟩

theorem JsonRule_init_error (E : Env) (r : JsonRule)
    (h : ∃ pat ∈ r.Method ++ r.Host ++ r.URL, ∃ e, E.PrepareRegexp pat true = .error e) :
    ∃ e, r.init E = .error e := by
  obtain ⟨pat, hm, e, he⟩ := h
  unfold JsonRule.init
  cases h1 : initRegexSlice E r.Method with
  | error e1 => exact ⟨e1, rfl⟩
  | ok m =>
    cases h2 : initRegexSlice E r.Host with
    | error e2 => exact ⟨e2, rfl⟩
    | ok hh =>
      cases h3 : initRegexSlice E r.URL with
      | error e3 => exact ⟨e3, rfl⟩
      | ok u =>
        exfalso
        rcases List.mem_append.mp hm with hm | hm
        · rcases List.mem_append.mp hm with hm | hm
          · obtain ⟨e', he'⟩ := initRegexSlice_error E r.Method ⟨pat, hm, e, he⟩
            rw [h1] at he'; cases he'
          · obtain ⟨e', he'⟩ := initRegexSlice_error E r.Host ⟨pat, hm, e, he⟩
            rw [h2] at he'; cases he'
        · obtain ⟨e', he'⟩ := initRegexSlice_error E r.URL ⟨pat, hm, e, he⟩
          rw [h3] at he'; cases he'

theorem initRules_not_ok (E : Env) (tmp : List (Option JsonRule))
    (h : ∃ r, some r ∈ tmp ∧ ∃ e, r.init E = .error e) :
    ∀ l, initRules E tmp ≠ .ok l := by
  induction tmp with
  | nil => obtain ⟨r, hr, _⟩ := h; cases hr
  | cons o rest ih =>
    intro l hl
    cases o with
    | none => simp [initRules] at hl
    | some q =>
      cases hq : q.init E with
      | error e => simp [initRules, hq] at hl
      | ok q1 =>
        have h2 : ∃ r, some r ∈ rest ∧ ∃ e, r.init E = .error e := by
          obtain ⟨r, hm, e, he⟩ := h
          rcases List.mem_cons.mp hm with hm | hm
          · injection hm with hm
            subst hm
            rw [hq] at he; cases he
          · exact ⟨r, hm, e, he⟩
        cases hr : initRules E rest with
        | ok rs => exact ih h2 rs hr
        | error e => simp [initRules, hq, hr] at hl
        | panic => simp [initRules, hq, hr] at hl

theorem initRules_no_panic (E : Env) (tmp : List (Option JsonRule)) (hnn : none ∉ tmp) :
    initRules E tmp ≠ .panic := by
  induction tmp with
  | nil => simp [initRules]
  | cons o rest ih =>
    cases o with
    | none => exact absurd (List.mem_cons_self _ _) hnn
    | some q =>
      have hrest : none ∉ rest := fun hm => hnn (List.mem_cons_of_mem _ hm)
      cases hq : q.init E with
      | error e => simp [initRules, hq]
      | ok q1 =>
        cases hr : initRules E rest with
        | ok rs => simp [initRules, hq, hr]
        | error e => simp [initRules, hq, hr]
        | panic => exact absurd hr (ih hrest)

theorem loadLoop_not_ok (E : Env) (files : List ScriptFile) :
    ∀ (rules : List JsonRule),
      (∃ tmp, ScriptFile.parsed tmp ∈ files ∧ ∃ r, some r ∈ tmp ∧ ∃ e, r.init E = .error e) →
      ∀ l, loadLoop E files rules ≠ .ok l := by
  induction files with
  | nil => intro rules h; obtain ⟨tmp, hm, _⟩ := h; cases hm
  | cons f rest ih =>
    intro rules h l hl
    obtain ⟨tmp, hm, hbad⟩ := h
    cases f with
    | readError err => simp [loadLoop] at hl
    | unmarshalError err =>
      rcases List.mem_cons.mp hm with hm | hm
      · cases hm
      · simp only [loadLoop] at hl
        exact ih rules ⟨tmp, hm, hbad⟩ l hl
    | parsed tmp0 =>
      cases h0 : initRules E tmp0 with
      | error e0 => simp [loadLoop, h0] at hl
      | panic => simp [loadLoop, h0] at hl
      | ok tmp1 =>
        rcases List.mem_cons.mp hm with hm | hm
        · injection hm with hm
          subst hm
          exact initRules_not_ok E tmp hbad tmp1 h0
        · simp only [loadLoop, h0] at hl
          exact ih (rules ++ tmp1) ⟨tmp, hm, hbad⟩ l hl

theorem loadLoop_no_panic (E : Env) (files : List ScriptFile) :
    ∀ (rules : List JsonRule),
      (∀ tmp, ScriptFile.parsed tmp ∈ files → none ∉ tmp) →
      loadLoop E files rules ≠ .panic := by
  induction files with
  | nil => intro rules _; simp [loadLoop]
  | cons f rest ih =>
    intro rules h
    have hrest : ∀ tmp, ScriptFile.parsed tmp ∈ rest → none ∉ tmp :=
      fun tmp hm => h tmp (List.mem_cons_of_mem _ hm)
    cases f with
    | readError err => simp [loadLoop]
    | unmarshalError err =>
      simp only [loadLoop]
      exact ih rules hrest
    | parsed tmp0 =>
      cases h0 : initRules E tmp0 with
      | error e0 => simp [loadLoop, h0]
      | panic => exact absurd h0 (initRules_no_panic E tmp0 (h tmp0 (List.mem_cons_self _ _)))
      | ok tmp1 =>
        simp only [loadLoop, h0]
        exact ih (rules ++ tmp1) hrest

/-- A pattern that fails to compile never lets the pending rules through: the
call returns an error or panics, and `spac` is as before; when no decoded rule is
nil it returns an error. -/
theorem loadSpacScript_bad_pattern (E : Env) (files : List ScriptFile) (spac : SpacConfig)
    (h : ∃ tmp, ScriptFile.parsed tmp ∈ files ∧ ∃ r, some r ∈ tmp ∧
      ∃ pat ∈ r.Method ++ r.Host ++ r.URL, ∃ e, E.PrepareRegexp pat true = .error e) :
    ((∃ err, loadSpacScript E files spac = .returned spac (some err))
      ∨ loadSpacScript E files spac = .panicked spac)
    ∧ (loadSpacScript E files spac).spac = spac
    ∧ ((∀ tmp, ScriptFile.parsed tmp ∈ files → none ∉ tmp) →
        ∃ err, loadSpacScript E files spac = .returned spac (some err)) := by
  obtain ⟨tmp, hm, r, hr, hpat⟩ := h
  obtain ⟨e1, he1⟩ := JsonRule_init_error E r hpat
  have hnot := loadLoop_not_ok E files [] ⟨tmp, hm, r, hr, e1, he1⟩
  cases hl : loadLoop E files [] with
  | ok l => exact absurd hl (hnot l)
  | error err =>
    have hres : loadSpacScript E files spac = .returned spac (some err) := by
      simp [loadSpacScript, hl]
    rw [hres]
    exact ⟨Or.inl ⟨err, rfl⟩, rfl, fun _ => ⟨err, rfl⟩⟩
  | panic =>
    have hres : loadSpacScript E files spac = .panicked spac := by
      simp [loadSpacScript, hl]
    rw [hres]
    refine ⟨Or.inr rfl, rfl, ?_⟩
    intro hnn
    exact absurd hl (loadLoop_no_panic E files [] hnn)

/-! ### C14 -/

/-- C14 fails on the code: when the user file decodes to a nil rule (a JSON
`null`) followed by a rule whose `URL` pattern `(` does not compile,
`loadSpacScript` calls `init` on the nil rule first and panics; it returns no
error.  The same happens when the nil rule is in the user file and the bad pattern
in the cloud file.  (`spac` is as before the call in both cases; and whenever no
decoded rule is nil, a pattern that fails to compile makes the call return an
error and leave `spac` as it was.) -/
theorem loadSpacScript_nil_rule_panics :
    (∃ pat ∈ ({ emptyRule with URL := ["("] } : JsonRule).Method
          ++ ({ emptyRule with URL := ["("] } : JsonRule).Host
          ++ ({ emptyRule with URL := ["("] } : JsonRule).URL,
        ∃ e, exEnv.PrepareRegexp pat true = .error e)
    ∧ loadSpacScript exEnv [ScriptFile.parsed [none, some { emptyRule with URL := ["("] }]]
          { defaultRule := "GAE", rules := [exRuleRedirect] }
        = .panicked { defaultRule := "GAE", rules := [exRuleRedirect] }
    ∧ loadSpacScript exEnv
          [ScriptFile.parsed [some exRuleA, none],
           ScriptFile.parsed [some { emptyRule with URL := ["("] }]]
          { defaultRule := "GAE", rules := [exRuleRedirect] }
        = .panicked { defaultRule := "GAE", rules := [exRuleRedirect] }
    ∧ (¬ ∃ s err, loadSpacScript exEnv
          [ScriptFile.parsed [none, some { emptyRule with URL := ["("] }]]
          { defaultRule := "GAE", rules := [exRuleRedirect] } = .returned s err)
    ∧ (∀ (E : Env) (files : List ScriptFile) (spac : SpacConfig),
        (∃ tmp, ScriptFile.parsed tmp ∈ files ∧ ∃ r, some r ∈ tmp ∧
          ∃ pat ∈ r.Method ++ r.Host ++ r.URL, ∃ e, E.PrepareRegexp pat true = .error e) →
        (loadSpacScript E files spac).spac = spac
        ∧ ((∀ tmp, ScriptFile.parsed tmp ∈ files → none ∉ tmp) →
            ∃ err, loadSpacScript E files spac = .returned spac (some err))) := by
  have h1 : loadSpacScript exEnv [ScriptFile.parsed [none, some { emptyRule with URL := ["("] }]]
          { defaultRule := "GAE", rules := [exRuleRedirect] }
        = .panicked { defaultRule := "GAE", rules := [exRuleRedirect] } := rfl
  refine ⟨⟨"(", by simp [emptyRule], "bad pattern", rfl⟩, h1, rfl, ?_, ?_⟩
  · rintro ⟨s, err, h⟩
    rw [h1] at h
    cases h
  · intro E files spac h
    exact ⟨(loadSpacScript_bad_pattern E files spac h).2.1,
      (loadSpacScript_bad_pattern E files spac h).2.2⟩

/-! ### C15 -/

theorem initRegexSlice_ok (E : Env) (pats : List String)
    (h : ∀ pat ∈ pats, ∃ reg, E.PrepareRegexp pat true = .ok reg) :
    ∃ regs, initRegexSlice E pats = .ok regs := by
  induction pats with
  | nil => exact ⟨[], rfl⟩
  | cons p rest ih =>
    obtain ⟨reg, hreg⟩ := h p (List.mem_cons_self _ _)
    obtain ⟨regs, hregs⟩ := ih (fun q hq => h q (List.mem_cons_of_mem _ hq))
    exact ⟨reg :: regs, by simp [initRegexSlice, hreg, hregs]⟩

theorem JsonRule_init_ok (E : Env) (r : JsonRule)
    (h : ∀ pat ∈ r.Method ++ r.Host ++ r.URL, ∃ reg, E.PrepareRegexp pat true = .ok reg) :
    ∃ r1, r.init E = .ok r1 := by
  obtain ⟨m, hm⟩ := initRegexSlice_ok E r.Method (fun p hp => h p (by simp [hp]))
  obtain ⟨hh, hhh⟩ := initRegexSlice_ok E r.Host (fun p hp => h p (by simp [hp]))
  obtain ⟨u, hu⟩ := initRegexSlice_ok E r.URL (fun p hp => h p (by simp [hp]))
  exact ⟨{ r with method_regex := m, host_regex := hh, url_regex := u },
    by simp [JsonRule.init, hm, hhh, hu]⟩

theorem JsonRule_init_fields (E : Env) (r r1 : JsonRule) (h : r.init E = .ok r1) :
    r1.Proxy = r.Proxy ∧ r1.Attr = r.Attr ∧ r1.Filter = r.Filter ∧ r1.Protocol = r.Protocol := by
  unfold JsonRule.init at h
  split at h
  · cases h
  · split at h
    · cases h
    · split at h
      · cases h
      · injection h with h
        subst h
        exact ⟨rfl, rfl, rfl, rfl⟩

theorem initRules_ok (E : Env) (tmp : List JsonRule)
    (h : ∀ r ∈ tmp, ∀ pat ∈ r.Method ++ r.Host ++ r.URL,
      ∃ reg, E.PrepareRegexp pat true = .ok reg) :
    ∃ tmp1, initRules E (tmp.map some) = .ok tmp1 := by
  induction tmp with
  | nil => exact ⟨[], rfl⟩
  | cons r rest ih =>
    obtain ⟨r1, hr1⟩ := JsonRule_init_ok E r (h r (List.mem_cons_self _ _))
    obtain ⟨rs, hrs⟩ := ih (fun q hq => h q (List.mem_cons_of_mem _ hq))
    exact ⟨r1 :: rs, by simp [initRules, hr1, hrs]⟩

theorem initRules_forall₂ (E : Env) (tmp : List JsonRule) :
    ∀ tmp1, initRules E (tmp.map some) = .ok tmp1 →
      List.Forall₂ (fun r r1 => r.init E = .ok r1 ∧ r1.Proxy = r.Proxy) tmp tmp1 := by
  induction tmp with
  | nil =>
    intro tmp1 h
    simp only [List.map_nil, initRules] at h
    injection h with h
    subst h
    exact List.Forall₂.nil
  | cons r rest ih =>
    intro tmp1 h
    simp only [List.map_cons, initRules] at h
    cases hr : r.init E with
    | error e => rw [hr] at h; cases h
    | ok r1 =>
      rw [hr] at h
      simp only at h
      cases hrs : initRules E (rest.map some) with
      | error e => rw [hrs] at h; cases h
      | panic => rw [hrs] at h; cases h
      | ok rs =>
        rw [hrs] at h
        injection h with h
        subst h
        exact List.Forall₂.cons ⟨hr, (JsonRule_init_fields E r r1 hr).1⟩ (ih rs hrs)

/-- C15: when both rule files are read and decoded and every pattern compiles,
`loadSpacScript` returns no error and commits as `spac.rules` the compiled rules
of the user file, in file order, followed by those of the cloud file, in file
order, none dropped; hence a request matched by a user rule gets the `Proxy` list
of the first user rule that matches it, whatever the cloud rules are. -/
theorem loadSpacScript_user_before_cloud (E : Env) (user cloud : List JsonRule)
    (spac : SpacConfig)
    (h : ∀ r ∈ user ++ cloud, ∀ pat ∈ r.Method ++ r.Host ++ r.URL,
      ∃ reg, E.PrepareRegexp pat true = .ok reg) :
    ∃ user1 cloud1 : List JsonRule,
      loadSpacScript E [ScriptFile.parsed (user.map some), ScriptFile.parsed (cloud.map some)]
          spac
        = .returned { spac with rules := user1 ++ cloud1 } none
      ∧ List.Forall₂ (fun r r1 => r.init E = .ok r1 ∧ r1.Proxy = r.Proxy) user user1
      ∧ List.Forall₂ (fun r r1 => r.init E = .ok r1 ∧ r1.Proxy = r.Proxy) cloud cloud1
      ∧ ∀ (req : Request) (host port : String) (isHttpsConn : Bool) (proxyNames : List String),
          (∃ u ∈ user1, u.match E req isHttpsConn = true) →
          ∃ pre u post, user1 = pre ++ u :: post
            ∧ (∀ q ∈ pre, q.match E req isHttpsConn = false)
            ∧ u.match E req isHttpsConn = true
            ∧ (selectProxyByRequest E
                (loadSpacScript E
                  [ScriptFile.parsed (user.map some), ScriptFile.parsed (cloud.map some)]
                  spac).spac
                req host port isHttpsConn proxyNames).1 = u.Proxy := by
  obtain ⟨user1, hu⟩ := initRules_ok E user (fun r hr => h r (by simp [hr]))
  obtain ⟨cloud1, hc⟩ := initRules_ok E cloud (fun r hr => h r (by simp [hr]))
  have hload : loadSpacScript E
        [ScriptFile.parsed (user.map some), ScriptFile.parsed (cloud.map some)] spac
      = .returned { spac with rules := user1 ++ cloud1 } none := by
    simp [loadSpacScript, loadLoop, hu, hc]
  refine ⟨user1, cloud1, hload, initRules_forall₂ E user user1 hu,
    initRules_forall₂ E cloud cloud1 hc, ?_⟩
  intro req host port isHttpsConn proxyNames hm
  obtain ⟨pre, u, post, hsplit, hpre, hu1⟩ :=
    exists_first_match (fun q => q.match E req isHttpsConn) user1 hm
  refine ⟨pre, u, post, hsplit, hpre, hu1, ?_⟩
  rw [hload]
  have hrules : ({ spac with rules := user1 ++ cloud1 } : SpacConfig).rules
      = pre ++ u :: (post ++ cloud1) := by
    simp [hsplit]
  simp only [LoadResult.spac]
  rw [selectProxyByRequest_of_split E _ req host port isHttpsConn proxyNames pre u
    (post ++ cloud1) hrules hpre hu1]

/-- Witness for C15: the user file sends everything to `SSH`, the cloud file
sends the sample request to `C4`; the user rule wins. -/
theorem loadSpacScript_user_before_cloud_witness :
    (∀ r ∈ [exRuleAll] ++ [exRuleA], ∀ pat ∈ r.Method ++ r.Host ++ r.URL,
      ∃ reg, exEnv.PrepareRegexp pat true = .ok reg)
    ∧ (selectProxyByRequest exEnv
        (loadSpacScript exEnv
          [ScriptFile.parsed ([exRuleAll].map some), ScriptFile.parsed ([exRuleA].map some)]
          { defaultRule := "GAE", rules := [] }).spac
        exReq "a.example" "80" false ["GAE"]).1 = ["SSH"]
    ∧ ∃ user1 cloud1 : List JsonRule,
      loadSpacScript exEnv
          [ScriptFile.parsed ([exRuleAll].map some), ScriptFile.parsed ([exRuleA].map some)]
          { defaultRule := "GAE", rules := [] }
        = .returned
            { ({ defaultRule := "GAE", rules := [] } : SpacConfig) with rules := user1 ++ cloud1 }
            none
      ∧ List.Forall₂ (fun r r1 => r.init exEnv = .ok r1 ∧ r1.Proxy = r.Proxy) [exRuleAll] user1
      ∧ List.Forall₂ (fun r r1 => r.init exEnv = .ok r1 ∧ r1.Proxy = r.Proxy) [exRuleA] cloud1
      ∧ ∀ (req : Request) (host port : String) (isHttpsConn : Bool) (proxyNames : List String),
          (∃ u ∈ user1, u.match exEnv req isHttpsConn = true) →
          ∃ pre u post, user1 = pre ++ u :: post
            ∧ (∀ q ∈ pre, q.match exEnv req isHttpsConn = false)
            ∧ u.match exEnv req isHttpsConn = true
            ∧ (selectProxyByRequest exEnv
                (loadSpacScript exEnv
                  [ScriptFile.parsed ([exRuleAll].map some),
                   ScriptFile.parsed ([exRuleA].map some)]
                  { defaultRule := "GAE", rules := [] }).spac
                req host port isHttpsConn proxyNames).1 = u.Proxy :=
  have hyp : ∀ r ∈ [exRuleAll] ++ [exRuleA], ∀ pat ∈ r.Method ++ r.Host ++ r.URL,
      ∃ reg, exEnv.PrepareRegexp pat true = .ok reg := by
    intro r hr pat hpat
    simp only [List.cons_append, List.nil_append, List.mem_cons, List.mem_singleton,
      List.not_mem_nil, or_false] at hr
    rcases hr with rfl | rfl
    · simp [exRuleAll, emptyRule] at hpat
    · simp only [exRuleA, emptyRule, List.append_nil, List.cons_append, List.nil_append,
        List.mem_cons, List.mem_singleton, List.not_mem_nil, or_false] at hpat
      rcases hpat with rfl | rfl
      · exact ⟨exactRegexp "GET", rfl⟩
      · exact ⟨exactRegexp "a.example", rfl⟩
  ⟨hyp, by decide,
    loadSpacScript_user_before_cloud exEnv [exRuleAll] [exRuleA]
      { defaultRule := "GAE", rules := [] } hyp⟩

/-! ### C13 -/

theorem readLines_of_shortLines (s : List Char) :
    ∀ (cur : List Char) (n : Nat), shortLines s n = true →
      readLines s cur n = .ok (contentLines s cur) := by
  induction s with
  | nil =>
    intro cur n _
    unfold readLines contentLines
    split <;> rfl
  | cons c rest ih =>
    intro cur n h
    unfold shortLines at h
    unfold readLines contentLines
    by_cases hc : (c == '\n') = true
    · simp only [hc, if_true] at h ⊢
      rw [ih [] 0 h]
      simp only
      split <;> rfl
    · rw [if_neg hc] at h
      rw [if_neg hc, if_neg hc]
      have h1 : n + c.utf8Size < bufSize := by
        have := (Bool.and_eq_true _ _).mp h
        simpa using this.1
      have h2 : shortLines rest (n + c.utf8Size) = true := ((Bool.and_eq_true _ _).mp h).2
      rw [if_pos h1]
      exact ih (c :: cur) (n + c.utf8Size) h2

theorem translateLine_not_entry (line : List Char) (h : isListEntry line = false) :
    translateLine line = .ok none := by
  have hb : "!".data = ['!'] := rfl
  unfold isListEntry at h
  unfold translateLine
  simp only
  have hc : ("!".data.isPrefixOf (trimSpaceChars line)
      || (trimSpaceChars line).length == 0) = true := by
    cases ht : trimSpaceChars line with
    | nil => simp
    | cons x xs =>
      rw [ht] at h
      simp only [List.isEmpty_cons, Bool.not_false, Bool.true_and,
        Bool.not_eq_false'] at h
      simp [h]
  rw [if_pos hc]

theorem translateLine_entry (line : List Char) (h : isListEntry line = true)
    (r : Option (String × String)) (hr : translateLine line = .ok r) : ∃ p, r = some p := by
  unfold isListEntry at h
  unfold translateLine at hr
  simp only at hr
  have hc : ¬ (("!".data.isPrefixOf (trimSpaceChars line)
      || (trimSpaceChars line).length == 0) = true) := by
    cases ht : trimSpaceChars line with
    | nil => rw [ht] at h; simp at h
    | cons x xs =>
      rw [ht] at h
      simp only [List.isEmpty_cons, Bool.not_false, Bool.true_and, Bool.not_eq_true'] at h
      simp [h]
  rw [if_neg hc] at hr
  split at hr
  · injection hr with hr
    exact ⟨_, hr.symm⟩
  · cases hr

theorem pacLoop_length (lines : List (List Char)) :
    ∀ (i : Nat) (jscode out : List String), pacLoop lines (i + 1) jscode = .ok out →
      out.length = jscode.length + (lines.filter isListEntry).length := by
  induction lines with
  | nil =>
    intro i jscode out h
    simp only [pacLoop] at h
    injection h with h
    subst h
    simp
  | cons line rest ih =>
    intro i jscode out h
    unfold pacLoop at h
    have hi : ¬ ((i + 1 + 1 == 1) = true) := by simp
    rw [if_neg hi] at h
    cases he : isListEntry line with
    | false =>
      rw [translateLine_not_entry line he] at h
      simp only at h
      rw [ih (i + 1) jscode out h]
      simp [List.filter, he]
    | true =>
      cases ht : translateLine line with
      | error e => rw [ht] at h; cases h
      | ok r =>
        obtain ⟨p, hp⟩ := translateLine_entry line he r ht
        subst hp
        obtain ⟨proxyVar, jsLine⟩ := p
        rw [ht] at h
        simp only at h
        split at h
        · rw [ih (i + 1) _ out h]
          simp [List.filter, he]
          omega
        · rw [ih (i + 1) _ out h]
          simp [List.filter, he]
          omega

/-- C13, as stated, fails: the first line of the content is skipped, so the
content `ads` followed by `||b.c` has two non-empty, non-comment lines and yields
one check line. -/
theorem generatePAC_line_count_counterexample :
    ((contentLines (pacInput "ads\n||b.c" none) []).filter isListEntry).length = 2
    ∧ pacRuleLines "ads\n||b.c" none
        = .ok ["if(/^[\\w\\-]+:\\/+(?!\\/)(?:[^\\/]+\\.)?b\\.c/i.test(url)) return PROXY;"]
    ∧ ¬ (∀ jscode, pacRuleLines "ads\n||b.c" none = .ok jscode →
          jscode.length
            = ((contentLines (pacInput "ads\n||b.c" none) []).filter isListEntry).length) := by
  have h1 : ((contentLines (pacInput "ads\n||b.c" none) []).filter isListEntry).length = 2 := by
    decide
  have h2 : pacRuleLines "ads\n||b.c" none
      = .ok ["if(/^[\\w\\-]+:\\/+(?!\\/)(?:[^\\/]+\\.)?b\\.c/i.test(url)) return PROXY;"] := by
    decide
  refine ⟨h1, h2, ?_⟩
  intro hall
  have := hall _ h2
  rw [h1] at this
  simp at this

/-- C13, amended: for every text translated by `generatePAC` (the content,
followed by the user list when there is one) in which no line reaches the 4096
bytes of the read buffer, and from which a script is produced, every line after
the first that is non-empty after trimming and does not start with `!` produces
exactly one check line: the number of check lines equals the number of such lines
after the first line. -/
theorem generatePAC_line_count (content : String) (usercontent : Option String)
    (jscode : List String)
    (hshort : shortLines (pacInput content usercontent) 0 = true)
    (h : pacRuleLines content usercontent = .ok jscode) :
    jscode.length
      = (((contentLines (pacInput content usercontent) []).tail).filter isListEntry).length := by
  unfold pacRuleLines at h
  rw [readLines_of_shortLines _ [] 0 hshort] at h
  simp only at h
  cases hl : contentLines (pacInput content usercontent) [] with
  | nil =>
    rw [hl] at h
    simp only [pacLoop] at h
    injection h with h
    subst h
    rfl
  | cons first rest =>
    rw [hl] at h
    unfold pacLoop at h
    simp only [Nat.zero_add, beq_self_eq_true, if_true] at h
    have := pacLoop_length rest 0 [] jscode h
    simpa using this

/-- Witness for amended C13: a header line, a comment, an empty line, an allow
line and two block lines give three check lines. -/
theorem generatePAC_line_count_witness :
    shortLines (pacInput "[AutoProxy]\n!note\n\n@@||a.b\r\n/x/\nads" none) 0 = true
    ∧ pacRuleLines "[AutoProxy]\n!note\n\n@@||a.b\r\n/x/\nads" none
        = .ok ["if(/^[\\w\\-]+:\\/+(?!\\/)(?:[^\\/]+\\.)?a\\.b/i.test(url)) return DEFAULT;",
               "if(/x/i.test(url)) return PROXY;", "if(/ads/i.test(url)) return PROXY;"]
    ∧ (["if(/^[\\w\\-]+:\\/+(?!\\/)(?:[^\\/]+\\.)?a\\.b/i.test(url)) return DEFAULT;",
        "if(/x/i.test(url)) return PROXY;", "if(/ads/i.test(url)) return PROXY;"] : List String).length
      = (((contentLines (pacInput "[AutoProxy]\n!note\n\n@@||a.b\r\n/x/\nads" none) []).tail).filter
          isListEntry).length :=
  ⟨by decide, by decide,
    generatePAC_line_count "[AutoProxy]\n!note\n\n@@||a.b\r\n/x/\nads" none _ (by decide)
      (by decide)⟩

/-! ### The replacement engine on runs of characters -/

theorem replaceFrom_nil (p : Pattern) (repl : List Char → List Char) (limit : Option Nat)
    (a : Bool) (k : Nat) : replaceFrom p repl limit a k [] = [] := by
  simp [replaceFrom]

theorem replaceFrom_skip_cons (p : Pattern) (repl : List Char → List Char) (limit : Option Nat)
    (a : Bool) (k : Nat) (x : Char) (xs : List Char) :
    replaceFrom p repl limit a (k + 1) (x :: xs) = replaceFrom p repl limit false k xs := by
  rw [replaceFrom]

theorem replaceFrom_skip (p : Pattern) (repl : List Char → List Char) (limit : Option Nat)
    (l rest : List Char) :
    replaceFrom p repl limit false l.length (l ++ rest) = replaceFrom p repl limit false 0 rest := by
  induction l with
  | nil => rfl
  | cons x xs ih =>
    simp only [List.length_cons, List.cons_append]
    rw [replaceFrom_skip_cons, ih]

theorem replaceFrom_limit_zero (p : Pattern) (repl : List Char → List Char) (a : Bool)
    (s : List Char) : replaceFrom p repl (some 0) a 0 s = s := by
  cases s with
  | nil => exact replaceFrom_nil _ _ _ _ _
  | cons x xs =>
    rw [replaceFrom]
    simp

theorem replaceFrom_cons_none (p : Pattern) (repl : List Char → List Char) (limit : Option Nat)
    (a : Bool) (x : Char) (xs : List Char) (h : matchHere p a (x :: xs) = none) :
    replaceFrom p repl limit a 0 (x :: xs) = x :: replaceFrom p repl limit false 0 xs := by
  rw [replaceFrom]
  by_cases hl : (limit == some 0) = true
  · have : limit = some 0 := by simpa using hl
    subst this
    simp [replaceFrom_limit_zero]
  · rw [if_neg hl, h]

theorem replaceFrom_cons_some (p : Pattern) (repl : List Char → List Char) (limit : Option Nat)
    (a : Bool) (x : Char) (xs m r : List Char) (h : matchHere p a (x :: xs) = some (m, r))
    (hm : m ≠ []) (hl : limit ≠ some 0) :
    replaceFrom p repl limit a 0 (x :: xs)
      = repl m ++ replaceFrom p repl (limit.map (fun n => n - 1)) false (m.length - 1) xs := by
  rw [replaceFrom]
  have hl' : ¬ ((limit == some 0) = true) := by simpa using hl
  rw [if_neg hl', h]
  have hme : m.isEmpty = false := by
    cases m with
    | nil => exact absurd rfl hm
    | cons y ys => rfl
  simp [hme]

theorem replaceFrom_reject (p : Pattern) (repl : List Char → List Char) (limit : Option Nat)
    (u rest : List Char) (h : ∀ x ∈ u, ∀ xs, matchHere p false (x :: xs) = none) :
    replaceFrom p repl limit false 0 (u ++ rest) = u ++ replaceFrom p repl limit false 0 rest := by
  induction u with
  | nil => rfl
  | cons x xs ih =>
    simp only [List.cons_append]
    rw [replaceFrom_cons_none _ _ _ _ _ _ (h x (List.mem_cons_self _ _) _)]
    rw [ih (fun y hy => h y (List.mem_cons_of_mem _ hy))]

theorem replaceFrom_reject_all (p : Pattern) (repl : List Char → List Char) (limit : Option Nat)
    (u : List Char) (h : ∀ x ∈ u, ∀ xs, matchHere p false (x :: xs) = none) :
    replaceFrom p repl limit false 0 u = u := by
  have := replaceFrom_reject p repl limit u [] h
  simpa [replaceFrom_nil] using this

theorem matchHere_flag (p : Pattern) (hp : ∀ a ∈ p, a ≠ Atom.bot) :
    ∀ s : List Char, matchHere p true s = matchHere p false s := by
  induction p with
  | nil => intro s; rfl
  | cons a p ih =>
    intro s
    have ih' := ih (fun b hb => hp b (List.mem_cons_of_mem _ hb))
    cases a with
    | lit c => cases s <;> rfl
    | nonWord => cases s <;> rfl
    | plus c => cases s <;> rfl
    | bot => exact absurd rfl (hp _ (List.mem_cons_self _ _))
    | eot =>
      simp only [matchHere]
      rw [ih']

theorem replaceFrom_flag (p : Pattern) (hp : ∀ a ∈ p, a ≠ Atom.bot)
    (repl : List Char → List Char) (limit : Option Nat) (s : List Char) :
    replaceFrom p repl limit true 0 s = replaceFrom p repl limit false 0 s := by
  cases s with
  | nil => rw [replaceFrom_nil, replaceFrom_nil]
  | cons x xs =>
    rw [replaceFrom, replaceFrom, matchHere_flag p hp]

theorem matchHere_lit_ne (c : Char) (p : Pattern) (a : Bool) (x : Char) (xs : List Char)
    (h : x ≠ c) : matchHere (Atom.lit c :: p) a (x :: xs) = none := by
  have : (x == c) = false := by simpa using h
  simp [matchHere, this]

theorem matchHere_plus_ne (c : Char) (p : Pattern) (a : Bool) (x : Char) (xs : List Char)
    (h : x ≠ c) : matchHere (Atom.plus c :: p) a (x :: xs) = none := by
  have : (x == c) = false := by simpa using h
  simp [matchHere, this]

theorem matchHere_nonWord_word (p : Pattern) (a : Bool) (x : Char) (xs : List Char)
    (h : isWordChar x = true) : matchHere (Atom.nonWord :: p) a (x :: xs) = none := by
  simp [matchHere, h]

theorem matchHere_bot_false (p : Pattern) (s : List Char) :
    matchHere (Atom.bot :: p) false s = none := by
  simp [matchHere]

/-- A pattern that begins with a literal absent from the text changes nothing. -/
theorem replaceFrom_lit_absent (c : Char) (p : Pattern) (repl : List Char → List Char)
    (limit : Option Nat) (s : List Char) (h : c ∉ s) :
    replaceFrom (Atom.lit c :: p) repl limit false 0 s = s := by
  apply replaceFrom_reject_all
  intro x hx xs
  exact matchHere_lit_ne c p false x xs (fun e => h (e ▸ hx))

/-- A pattern anchored at the beginning, whose first literal is not the first
character of the text, changes nothing. -/
theorem replaceFrom_bot_lit (c : Char) (p : Pattern) (repl : List Char → List Char)
    (limit : Option Nat) (s : List Char) (h : s.head? ≠ some c) :
    replaceFrom (Atom.bot :: Atom.lit c :: p) repl limit true 0 s = s := by
  cases s with
  | nil => exact replaceFrom_nil _ _ _ _ _
  | cons x xs =>
    have hx : x ≠ c := by
      intro e
      apply h
      simp [e]
    have hm : matchHere (Atom.bot :: Atom.lit c :: p) true (x :: xs) = none := by
      have : (x == c) = false := by simpa using hx
      simp [matchHere, this]
    rw [replaceFrom_cons_none _ _ _ _ _ _ hm]
    rw [replaceFrom_reject_all _ _ _ xs (fun y _ ys => matchHere_bot_false _ _)]


/-! ### The glob translation of a word between runs of `*` -/

theorem isWordChar_ne (x c : Char) (hx : isWordChar x = true) (hc : isWordChar c = false) :
    x ≠ c := by
  intro e
  rw [e, hc] at hx
  cases hx

theorem takeWhile_star_run (k : Nat) (rest : List Char) (h : rest.head? ≠ some '*') :
    (List.replicate k '*' ++ rest).takeWhile (fun y => y == '*') = List.replicate k '*' := by
  induction k with
  | zero =>
    cases rest with
    | nil => rfl
    | cons y ys =>
      have hy : (y == '*') = false := by
        cases hb : (y == '*') with
        | false => rfl
        | true =>
          exfalso; apply h
          have : y = '*' := by simpa using hb
          simp [this]
      simp [List.takeWhile, hy]
  | succ k ih =>
    simp only [List.replicate_succ, List.cons_append, List.takeWhile]
    simp [ih]

/-- Step 1 on a run of stars: the run is replaced by one `*`. -/
theorem collapse_star_run (k : Nat) (rest : List Char) (h : rest.head? ≠ some '*') :
    replaceFrom [Atom.plus '*'] (fun m => expand m "*".data) none false 0
        (List.replicate (k + 1) '*' ++ rest)
      = '*' :: replaceFrom [Atom.plus '*'] (fun m => expand m "*".data) none false 0 rest := by
  have hm : matchHere [Atom.plus '*'] false ('*' :: (List.replicate k '*' ++ rest))
      = some ('*' :: List.replicate k '*',
          (List.replicate k '*' ++ rest).dropWhile (fun y => y == '*')) := by
    simp [matchHere, takeWhile_star_run k rest h]
  simp only [List.replicate_succ, List.cons_append]
  rw [replaceFrom_cons_some _ _ _ _ _ _ _ _ hm (by simp) (by simp)]
  have hlen : ('*' :: List.replicate k '*').length - 1 = (List.replicate k '*').length := by
    simp
  rw [hlen, Option.map_none', replaceFrom_skip]
  rfl

theorem collapse_word_run (w rest : List Char) (hw : ∀ c ∈ w, isWordChar c = true) :
    replaceFrom [Atom.plus '*'] (fun m => expand m "*".data) none false 0 (w ++ rest)
      = w ++ replaceFrom [Atom.plus '*'] (fun m => expand m "*".data) none false 0 rest := by
  apply replaceFrom_reject
  intro x hx xs
  exact matchHere_plus_ne _ _ _ _ _ (isWordChar_ne x '*' (hw x hx) (by decide))


theorem collapse_spec (w : List Char) (hne : w ≠ []) (hw : ∀ c ∈ w, isWordChar c = true)
    (a b : Nat) :
    ReplaceAllString [Atom.plus '*'] (List.replicate a '*' ++ w ++ List.replicate b '*') "*"
      = (if a = 0 then [] else ['*']) ++ w ++ (if b = 0 then [] else ['*']) := by
  have hhead : ∀ rest : List Char, (w ++ rest).head? ≠ some '*' := by
    intro rest
    cases w with
    | nil => exact absurd rfl hne
    | cons x xs =>
      simp only [List.cons_append, List.head?_cons, ne_eq, Option.some.injEq]
      exact isWordChar_ne x '*' (hw x (List.mem_cons_self _ _)) (by decide)
  have htail : replaceFrom [Atom.plus '*'] (fun m => expand m "*".data) none false 0
      (List.replicate b '*') = (if b = 0 then [] else ['*']) := by
    cases b with
    | zero => simp [replaceFrom_nil]
    | succ k =>
      have := collapse_star_run k [] (by simp)
      simp only [List.append_nil] at this
      rw [this, replaceFrom_nil]
      simp
  unfold ReplaceAllString
  rw [replaceFrom_flag _ (by decide)]
  cases a with
  | zero =>
    simp only [List.replicate_zero, List.nil_append, if_true]
    rw [collapse_word_run w _ hw, htail]
  | succ k =>
    rw [List.append_assoc, collapse_star_run k _ (hhead _), collapse_word_run w _ hw, htail]
    simp

theorem word_not_mem (w : List Char) (hw : ∀ c ∈ w, isWordChar c = true) (c : Char)
    (hc : isWordChar c = false) : c ∉ w := by
  intro h
  rw [hw c h] at hc
  cases hc

theorem word_head (w rest : List Char) (hne : w ≠ []) (hw : ∀ c ∈ w, isWordChar c = true)
    (c : Char) (hc : isWordChar c = false) : (w ++ rest).head? ≠ some c := by
  cases w with
  | nil => exact absurd rfl hne
  | cons x xs =>
    simp only [List.cons_append, List.head?_cons, ne_eq, Option.some.injEq]
    exact isWordChar_ne x c (hw x (List.mem_cons_self _ _)) hc

/-- Step 2 (`\^\|$`): nothing to rewrite. -/
theorem step_caret_pipe (w : List Char) (hw : ∀ c ∈ w, isWordChar c = true) (A B : Bool) :
    RegexpReplace ((if A = true then ['*'] else []) ++ w ++ (if B = true then ['*'] else []))
        "^" [Atom.lit '^', Atom.lit '|', Atom.eot] 1
      = (if A = true then ['*'] else []) ++ w ++ (if B = true then ['*'] else []) := by
  unfold RegexpReplace
  rw [replaceFrom_flag _ (by decide)]
  apply replaceFrom_lit_absent
  have := word_not_mem w hw '^' (by decide)
  cases A <;> cases B <;> simp [this]

theorem escape_cons (x : Char) (xs : List Char) (hx : isWordChar x = false) :
    replaceFrom [Atom.nonWord] (fun m => expand m "\\$0".data) none false 0 (x :: xs)
      = '\\' :: x :: replaceFrom [Atom.nonWord] (fun m => expand m "\\$0".data) none false 0 xs := by
  have hm : matchHere [Atom.nonWord] false (x :: xs) = some ([x], xs) := by
    simp [matchHere, hx]
  rw [replaceFrom_cons_some _ _ _ _ _ _ _ _ hm (by simp) (by simp)]
  simp [expand]

theorem escape_word_run (w rest : List Char) (hw : ∀ c ∈ w, isWordChar c = true) :
    replaceFrom [Atom.nonWord] (fun m => expand m "\\$0".data) none false 0 (w ++ rest)
      = w ++ replaceFrom [Atom.nonWord] (fun m => expand m "\\$0".data) none false 0 rest := by
  apply replaceFrom_reject
  intro x hx xs
  exact matchHere_nonWord_word _ _ _ _ (hw x hx)

/-- Step 3 (`(\W)`): each `*` gets a backslash, the word is unchanged. -/
theorem step_escape (w : List Char) (hw : ∀ c ∈ w, isWordChar c = true) (A B : Bool) :
    ReplaceAllString [Atom.nonWord]
        ((if A = true then ['*'] else []) ++ w ++ (if B = true then ['*'] else [])) "\\$0"
      = (if A = true then ['\\', '*'] else []) ++ w
          ++ (if B = true then ['\\', '*'] else []) := by
  unfold ReplaceAllString
  rw [replaceFrom_flag _ (by decide)]
  have hs : isWordChar '*' = false := by decide
  have hall := escape_word_run w [] hw
  rw [replaceFrom_nil, List.append_nil] at hall
  cases A <;> cases B <;>
    simp [escape_cons _ _ hs, escape_word_run _ _ hw, hall, replaceFrom_nil, List.append_assoc]

theorem wildcard_cons (xs : List Char) :
    replaceFrom [Atom.lit '\\', Atom.lit '*'] (fun _ => ".*".data) none false 0
        ('\\' :: '*' :: xs)
      = '.' :: '*' :: replaceFrom [Atom.lit '\\', Atom.lit '*'] (fun _ => ".*".data) none
          false 0 xs := by
  have hm : matchHere [Atom.lit '\\', Atom.lit '*'] false ('\\' :: '*' :: xs)
      = some (['\\', '*'], xs) := by
    simp [matchHere]
  rw [replaceFrom_cons_some _ _ _ _ _ _ _ _ hm (by simp) (by simp)]
  simp only [List.length_cons, List.length_nil, Option.map_none']
  rw [replaceFrom_skip_cons]
  rfl

theorem wildcard_word_run (w rest : List Char) (hw : ∀ c ∈ w, isWordChar c = true) :
    replaceFrom [Atom.lit '\\', Atom.lit '*'] (fun _ => ".*".data) none false 0 (w ++ rest)
      = w ++ replaceFrom [Atom.lit '\\', Atom.lit '*'] (fun _ => ".*".data) none false 0
          rest := by
  apply replaceFrom_reject
  intro x hx xs
  exact matchHere_lit_ne _ _ _ _ _ (isWordChar_ne x '\\' (hw x hx) (by decide))

/-- Step 4 (`\*` to `.*`). -/
theorem step_wildcard (w : List Char) (hw : ∀ c ∈ w, isWordChar c = true) (A B : Bool) :
    stringsReplaceAll
        ((if A = true then ['\\', '*'] else []) ++ w ++ (if B = true then ['\\', '*'] else []))
        "\\*" ".*"
      = (if A = true then ['.', '*'] else []) ++ w ++ (if B = true then ['.', '*'] else []) := by
  unfold stringsReplaceAll
  have hp : "\\*".data.map Atom.lit = [Atom.lit '\\', Atom.lit '*'] := rfl
  rw [hp, replaceFrom_flag _ (by decide)]
  have hall := wildcard_word_run w [] hw
  rw [replaceFrom_nil, List.append_nil] at hall
  cases A <;> cases B <;>
    simp [wildcard_cons, wildcard_word_run _ _ hw, hall, replaceFrom_nil, List.append_assoc]

/-- Steps 6 and 7 (`^\\\|\\\|` and `^\\\|`): the text does not begin with a
backslash, nothing to rewrite. -/
theorem step_bar_prefix (w : List Char) (hne : w ≠ []) (hw : ∀ c ∈ w, isWordChar c = true)
    (A B : Bool) (p : Pattern) (replace : String) :
    RegexpReplace
        ((if A = true then ['.', '*'] else []) ++ w ++ (if B = true then ['.', '*'] else []))
        replace (Atom.bot :: Atom.lit '\\' :: p) 1
      = (if A = true then ['.', '*'] else []) ++ w ++ (if B = true then ['.', '*'] else []) := by
  unfold RegexpReplace
  apply replaceFrom_bot_lit
  cases A
  · simp only [Bool.false_eq_true, if_false, List.nil_append]
    exact word_head w _ hne hw '\\' (by decide)
  · simp

/-- Step 8 (`\\\|$`): the text holds no backslash, nothing to rewrite. -/
theorem step_bar_suffix (w : List Char) (hw : ∀ c ∈ w, isWordChar c = true) (A B : Bool) :
    RegexpReplace
        ((if A = true then ['.', '*'] else []) ++ w ++ (if B = true then ['.', '*'] else []))
        "$" [Atom.lit '\\', Atom.lit '|', Atom.eot] 1
      = (if A = true then ['.', '*'] else []) ++ w ++ (if B = true then ['.', '*'] else []) := by
  unfold RegexpReplace
  rw [replaceFrom_flag _ (by decide)]
  apply replaceFrom_lit_absent
  have := word_not_mem w hw '\\' (by decide)
  cases A <;> cases B <;> simp [this]

/-- Step 9 (`^(\.\*)`): a leading `.*` is removed. -/
theorem step_strip_leading (w : List Char) (hne : w ≠ []) (hw : ∀ c ∈ w, isWordChar c = true)
    (A B : Bool) :
    RegexpReplace
        ((if A = true then ['.', '*'] else []) ++ w ++ (if B = true then ['.', '*'] else []))
        "" [Atom.bot, Atom.lit '.', Atom.lit '*'] 1
      = w ++ (if B = true then ['.', '*'] else []) := by
  unfold RegexpReplace
  cases A
  · simp only [Bool.false_eq_true, if_false, List.nil_append]
    apply replaceFrom_bot_lit
    exact word_head w _ hne hw '.' (by decide)
  · have hm : ∀ xs : List Char,
        matchHere [Atom.bot, Atom.lit '.', Atom.lit '*'] true ('.' :: '*' :: xs)
          = some (['.', '*'], xs) := by
      intro xs
      simp [matchHere]
    simp only [if_true, List.cons_append, List.nil_append]
    rw [replaceFrom_cons_some _ _ _ _ _ _ _ _ (hm _) (by simp) (by simp)]
    simp only [List.length_cons, List.length_nil, Option.map_some']
    rw [replaceFrom_skip_cons]
    have h0 : (1 : Nat) - 1 = 0 := rfl
    rw [h0, replaceFrom_limit_zero]
    rfl

/-- Step 10 (`(\.\*)$`): a trailing `.*` is removed. -/
theorem step_strip_trailing (w : List Char) (hw : ∀ c ∈ w, isWordChar c = true) (B : Bool) :
    RegexpReplace (w ++ (if B = true then ['.', '*'] else []))
        "" [Atom.lit '.', Atom.lit '*', Atom.eot] 1
      = w := by
  unfold RegexpReplace
  rw [replaceFrom_flag _ (by decide)]
  have hrun : ∀ rest : List Char,
      replaceFrom [Atom.lit '.', Atom.lit '*', Atom.eot] (fun _ => "".data) (some 1) false 0
          (w ++ rest)
        = w ++ replaceFrom [Atom.lit '.', Atom.lit '*', Atom.eot] (fun _ => "".data) (some 1)
            false 0 rest := by
    intro rest
    apply replaceFrom_reject
    intro x hx xs
    exact matchHere_lit_ne _ _ _ _ _ (isWordChar_ne x '.' (hw x hx) (by decide))
  rw [hrun]
  cases B
  · simp [replaceFrom_nil]
  · have : replaceFrom [Atom.lit '.', Atom.lit '*', Atom.eot] (fun _ => "".data) (some 1)
        false 0 ['.', '*'] = [] := by decide
    simp [this]

theorem globToRegexp_of_collapse (w : List Char) (hne : w ≠ [])
    (hw : ∀ c ∈ w, isWordChar c = true) (A B : Bool) (str : List Char)
    (h : ReplaceAllString [Atom.plus '*'] str "*"
      = (if A = true then ['*'] else []) ++ w ++ (if B = true then ['*'] else [])) :
    globToRegexp str = w := by
  have c1 : Compile "\\*+" = some [Atom.plus '*'] := rfl
  have c2 : Compile "\\^\\|$" = some [Atom.lit '^', Atom.lit '|', Atom.eot] := rfl
  have c3 : Compile "(\\W)" = some [Atom.nonWord] := rfl
  have c5 : Compile "\\\\^" = some [Atom.lit '\\', Atom.bot] := rfl
  have c6 : Compile "^\\\\\\|\\\\\\|"
      = some [Atom.bot, Atom.lit '\\', Atom.lit '|', Atom.lit '\\', Atom.lit '|'] := rfl
  have c7 : Compile "^\\\\\\|" = some [Atom.bot, Atom.lit '\\', Atom.lit '|'] := rfl
  have c8 : Compile "\\\\\\|$" = some [Atom.lit '\\', Atom.lit '|', Atom.eot] := rfl
  have c9 : Compile "^(\\.\\*)" = some [Atom.bot, Atom.lit '.', Atom.lit '*'] := rfl
  have c10 : Compile "(\\.\\*)$" = some [Atom.lit '.', Atom.lit '*', Atom.eot] := rfl
  have h5 : ∀ (s : List Char) (repl : String),
      ReplaceAllString [Atom.lit '\\', Atom.bot] s repl = s :=
    fun s repl => replaceFrom_backslash_bot _ s none true
  simp only [globToRegexp, withCompiled, c1, c2, c3, c5, c6, c7, c8, c9, c10]
  rw [h, step_caret_pipe w hw, step_escape w hw, step_wildcard w hw, h5,
    step_bar_prefix w hne hw, step_bar_prefix w hne hw, step_bar_suffix w hw,
    step_strip_leading w hne hw, step_strip_trailing w hw]

theorem globToRegexp_word (w : List Char) (hne : w ≠ []) (hw : ∀ c ∈ w, isWordChar c = true)
    (a b : Nat) :
    globToRegexp (List.replicate a '*' ++ w ++ List.replicate b '*') = w := by
  apply globToRegexp_of_collapse w hne hw (decide (a ≠ 0)) (decide (b ≠ 0))
  rw [collapse_spec w hne hw]
  cases a <;> cases b <;> simp


theorem isSpace_of_isWordChar (c : Char) (h : isWordChar c = true) : isSpace c = false := by
  unfold isWordChar at h
  unfold isSpace
  simp only [Bool.or_eq_true, Bool.and_eq_true, decide_eq_true_eq, beq_iff_eq] at h
  simp only [Bool.or_eq_false_iff, Bool.and_eq_false_iff, beq_eq_false_iff_ne, ne_eq,
    decide_eq_false_iff_not, not_le]
  omega

theorem dropWhile_none {α : Type} (p : α → Bool) (l : List α) (h : ∀ c ∈ l, p c = false) :
    l.dropWhile p = l := by
  cases l with
  | nil => rfl
  | cons x xs => simp [List.dropWhile, h x (List.mem_cons_self _ _)]

theorem trimSpaceChars_id (l : List Char) (h : ∀ c ∈ l, isSpace c = false) :
    trimSpaceChars l = l := by
  unfold trimSpaceChars
  rw [dropWhile_none isSpace l h]
  rw [dropWhile_none isSpace l.reverse (fun c hc => h c (List.mem_reverse.mp hc))]
  exact List.reverse_reverse l

theorem translateLine_glob (line : List Char) (hne : line ≠ [])
    (h : ∀ c ∈ line, isSpace c = false ∧ c ≠ '!' ∧ c ≠ '@' ∧ c ≠ '/') :
    translateLine line = .ok (some ("PROXY", jsLineOf (globToRegexp line) "PROXY")) := by
  have hb : "!".data = ['!'] := rfl
  have ha : "@@".data = ['@', '@'] := rfl
  have hs : "/".data = ['/'] := rfl
  unfold translateLine
  simp only
  rw [trimSpaceChars_id line (fun c hc => (h c hc).1)]
  cases line with
  | nil => exact absurd rfl hne
  | cons x xs =>
    obtain ⟨-, h1, h2, h3⟩ := h x (List.mem_cons_self _ _)
    have e1 : ('!' == x) = false := by simpa using Ne.symm h1
    have e2 : ('@' == x) = false := by simpa using Ne.symm h2
    have e3 : ('/' == x) = false := by simpa using Ne.symm h3
    simp [hb, ha, hs, List.isPrefixOf, e1, e2, e3, checkLine]

/-- The loop body on a word between runs of `*`: the runs collapse, the
translation is the word, and the line gives the check line for the word. -/
theorem translateLine_word_glob (w : List Char) (hne : w ≠ [])
    (hw : ∀ c ∈ w, isWordChar c = true) (a b : Nat) :
    ReplaceAllString [Atom.plus '*'] (List.replicate a '*' ++ w ++ List.replicate b '*') "*"
        = (if a = 0 then [] else ['*']) ++ w ++ (if b = 0 then [] else ['*'])
    ∧ globToRegexp (List.replicate a '*' ++ w ++ List.replicate b '*') = w
    ∧ translateLine (List.replicate a '*' ++ w ++ List.replicate b '*')
        = .ok (some ("PROXY", ⟨"if(/".data ++ w ++ "/i.test(url)) return PROXY;".data⟩)) := by
  refine ⟨collapse_spec w hne hw a b, globToRegexp_word w hne hw a b, ?_⟩
  have hline : (List.replicate a '*' ++ w ++ List.replicate b '*') ≠ [] := by
    intro h
    apply hne
    have := List.append_eq_nil.mp h
    exact (List.append_eq_nil.mp this.1).2
  have hchars : ∀ c ∈ List.replicate a '*' ++ w ++ List.replicate b '*',
      isSpace c = false ∧ c ≠ '!' ∧ c ≠ '@' ∧ c ≠ '/' := by
    intro c hc
    have hcases : c = '*' ∨ isWordChar c = true := by
      rcases List.mem_append.mp hc with hc | hc
      · rcases List.mem_append.mp hc with hc | hc
        · exact Or.inl (List.mem_replicate.mp hc).2
        · exact Or.inr (hw c hc)
      · exact Or.inl (List.mem_replicate.mp hc).2
    rcases hcases with rfl | hwc
    · decide
    · exact ⟨isSpace_of_isWordChar c hwc, isWordChar_ne c '!' hwc (by decide),
        isWordChar_ne c '@' hwc (by decide), isWordChar_ne c '/' hwc (by decide)⟩
  rw [translateLine_glob _ hline hchars, globToRegexp_word w hne hw a b]
  simp [jsLineOf]

/-! ### What the loop emits -/

theorem pacLoop_emits (lines : List (List Char)) :
    ∀ (i : Nat) (jscode out : List String), pacLoop lines (i + 1) jscode = .ok out →
      (∀ l ∈ jscode, l ∈ out)
      ∧ ∀ line ∈ lines, ∀ (proxyVar jsLine : String),
          translateLine line = .ok (some (proxyVar, jsLine)) → jsLine ∈ out := by
  induction lines with
  | nil =>
    intro i jscode out h
    simp only [pacLoop] at h
    injection h with h
    subst h
    exact ⟨fun l hl => hl, fun line hline => by cases hline⟩
  | cons line rest ih =>
    intro i jscode out h
    unfold pacLoop at h
    have hi : ¬ ((i + 1 + 1 == 1) = true) := by simp
    rw [if_neg hi] at h
    cases ht : translateLine line with
    | error e => rw [ht] at h; cases h
    | ok r =>
      rw [ht] at h
      cases r with
      | none =>
        simp only at h
        obtain ⟨h1, h2⟩ := ih (i + 1) jscode out h
        refine ⟨h1, ?_⟩
        intro line1 hline1 pv jl htl
        rcases List.mem_cons.mp hline1 with rfl | hm
        · rw [ht] at htl; cases htl
        · exact h2 line1 hm pv jl htl
      | some p =>
        obtain ⟨proxyVar, jsLine⟩ := p
        simp only at h
        have key : ∃ jscode1 : List String, pacLoop rest (i + 1 + 1) jscode1 = .ok out
            ∧ jsLine ∈ jscode1 ∧ ∀ l ∈ jscode, l ∈ jscode1 := by
          split at h
          · exact ⟨_, h, List.mem_cons_self _ _, fun l hl => List.mem_cons_of_mem _ hl⟩
          · exact ⟨_, h, by simp, fun l hl => List.mem_append_left _ hl⟩
        obtain ⟨jscode1, hloop, hjs, hsub⟩ := key
        obtain ⟨h1, h2⟩ := ih (i + 1) jscode1 out hloop
        refine ⟨fun l hl => h1 l (hsub l hl), ?_⟩
        intro line1 hline1 pv jl htl
        rcases List.mem_cons.mp hline1 with rfl | hm
        · rw [ht] at htl
          injection htl with htl
          injection htl with htl
          injection htl with _ hjl
          rw [← hjl]
          exact h1 jsLine hjs
        · exact h2 line1 hm pv jl htl

theorem pacRuleLines_emits (content : String) (usercontent : Option String)
    (jscode : List String)
    (hshort : shortLines (pacInput content usercontent) 0 = true)
    (h : pacRuleLines content usercontent = .ok jscode)
    (line : List Char)
    (hline : line ∈ (contentLines (pacInput content usercontent) []).tail)
    (proxyVar jsLine : String)
    (ht : translateLine line = .ok (some (proxyVar, jsLine))) : jsLine ∈ jscode := by
  unfold pacRuleLines at h
  rw [readLines_of_shortLines _ [] 0 hshort] at h
  simp only at h
  cases hl : contentLines (pacInput content usercontent) [] with
  | nil => rw [hl] at hline; cases hline
  | cons first rest =>
    rw [hl] at h hline
    unfold pacLoop at h
    simp only [Nat.zero_add, beq_self_eq_true, if_true] at h
    exact (pacLoop_emits rest 0 [] jscode h).2 line hline proxyVar jsLine ht

theorem translateLine_congr (l1 l2 : List Char) (h : trimSpaceChars l1 = trimSpaceChars l2) :
    translateLine l1 = translateLine l2 := by
  unfold translateLine
  simp only [h]

/-! ### C11 -/

/-- C11, as stated, fails: the line `/foo.*bar/` has the form `/X/`, but as the
first line of the content it is skipped, and `generatePAC` emits no check line for
it. -/
theorem generatePAC_regex_line_counterexample :
    trimSpaceChars "/foo.*bar/".data = '/' :: ("foo.*bar".data ++ ['/'])
    ∧ pacRuleLines "/foo.*bar/" none = .ok []
    ∧ ¬ ∃ jscode, pacRuleLines "/foo.*bar/" none = .ok jscode
        ∧ "if(/foo.*bar/i.test(url)) return PROXY;" ∈ jscode := by
  have h2 : pacRuleLines "/foo.*bar/" none = .ok [] := by decide
  refine ⟨by decide, h2, ?_⟩
  rintro ⟨jscode, h, hm⟩
  rw [h2] at h
  injection h with h
  subst h
  cases hm

/-- C11, amended: in a text translated by `generatePAC` (the content, followed by
the user list when there is one) in which no line reaches the 4096 bytes of the
read buffer and from which a script is produced, every line after the first that,
after trimming and after removing an optional `@@` prefix, has the form `/X/` is
translated with the interior `X` taken verbatim, and the check line
`if(/X/i.test(url)) return PROXY;` (`return DEFAULT;` for an `@@` line) is among
the check lines of the script. -/
theorem generatePAC_regex_line_emitted (content : String) (usercontent : Option String)
    (jscode : List String)
    (hshort : shortLines (pacInput content usercontent) 0 = true)
    (h : pacRuleLines content usercontent = .ok jscode)
    (line X : List Char)
    (hline : line ∈ (contentLines (pacInput content usercontent) []).tail) :
    (trimSpaceChars line = '/' :: (X ++ ['/']) →
      translateLine line
          = .ok (some ("PROXY", ⟨"if(/".data ++ X ++ "/i.test(url)) return PROXY;".data⟩))
        ∧ (⟨"if(/".data ++ X ++ "/i.test(url)) return PROXY;".data⟩ : String) ∈ jscode)
    ∧ (trimSpaceChars line = '@' :: '@' :: '/' :: (X ++ ['/']) →
      translateLine line
          = .ok (some ("DEFAULT", ⟨"if(/".data ++ X ++ "/i.test(url)) return DEFAULT;".data⟩))
        ∧ (⟨"if(/".data ++ X ++ "/i.test(url)) return DEFAULT;".data⟩ : String) ∈ jscode) := by
  constructor
  · intro ht
    have h1 := ((translateLine_regex_line line X).1 ht).1
    exact ⟨h1, pacRuleLines_emits content usercontent jscode hshort h line hline _ _ h1⟩
  · intro ht
    have h1 := ((translateLine_regex_line line X).2 ht).1
    exact ⟨h1, pacRuleLines_emits content usercontent jscode hshort h line hline _ _ h1⟩

/-- Witness for amended C11: the line `/foo.*bar/` after a header line. -/
theorem generatePAC_regex_line_emitted_witness :
    shortLines (pacInput "[AutoProxy]\n/foo.*bar/\n  @@/x+/ " none) 0 = true
    ∧ pacRuleLines "[AutoProxy]\n/foo.*bar/\n  @@/x+/ " none
        = .ok ["if(/x+/i.test(url)) return DEFAULT;", "if(/foo.*bar/i.test(url)) return PROXY;"]
    ∧ "/foo.*bar/".data
        ∈ (contentLines (pacInput "[AutoProxy]\n/foo.*bar/\n  @@/x+/ " none) []).tail
    ∧ trimSpaceChars "/foo.*bar/".data = '/' :: ("foo.*bar".data ++ ['/'])
    ∧ (translateLine "/foo.*bar/".data
          = .ok (some ("PROXY",
              ⟨"if(/".data ++ "foo.*bar".data ++ "/i.test(url)) return PROXY;".data⟩))
        ∧ (⟨"if(/".data ++ "foo.*bar".data ++ "/i.test(url)) return PROXY;".data⟩ : String)
            ∈ ["if(/x+/i.test(url)) return DEFAULT;",
               "if(/foo.*bar/i.test(url)) return PROXY;"]) :=
  ⟨by decide, by decide, by decide, by decide,
    (generatePAC_regex_line_emitted "[AutoProxy]\n/foo.*bar/\n  @@/x+/ " none _ (by decide)
      (by decide) "/foo.*bar/".data "foo.*bar".data (by decide)).1 (by decide)⟩

/-! ### C12 -/

/-- C12, as stated, fails: the glob line `*ads*`, as the first line of the
content, is skipped; `generatePAC` does not translate it and emits nothing. -/
theorem generatePAC_word_glob_counterexample :
    (∀ c ∈ "ads".data, isWordChar c = true)
    ∧ "*ads*".data = List.replicate 1 '*' ++ "ads".data ++ List.replicate 1 '*'
    ∧ pacRuleLines "*ads*" none = .ok []
    ∧ ¬ ∃ jscode, pacRuleLines "*ads*" none = .ok jscode
        ∧ "if(/ads/i.test(url)) return PROXY;" ∈ jscode := by
  have h2 : pacRuleLines "*ads*" none = .ok [] := by decide
  refine ⟨by decide, by decide, h2, ?_⟩
  rintro ⟨jscode, h, hm⟩
  rw [h2] at h
  injection h with h
  subst h
  cases hm

/-- C12, amended: in a text translated by `generatePAC` (the content, followed by
the user list when there is one) in which no line reaches the 4096 bytes of the
read buffer and from which a script is produced, every line after the first that,
once trimmed, is a non-empty string `w` of word characters `[0-9A-Za-z_]` between
runs (possibly empty) of `*` translates to the expression `w` itself: the runs of
`*` collapse to one `*`, each becomes `.*`, the leading and trailing `.*` are
stripped, and `if(/w/i.test(url)) return PROXY;` is among the check lines of the
script. -/
theorem generatePAC_word_glob_emitted (content : String) (usercontent : Option String)
    (jscode : List String)
    (hshort : shortLines (pacInput content usercontent) 0 = true)
    (h : pacRuleLines content usercontent = .ok jscode)
    (line : List Char)
    (hline : line ∈ (contentLines (pacInput content usercontent) []).tail)
    (w : List Char) (hne : w ≠ []) (hw : ∀ c ∈ w, isWordChar c = true) (a b : Nat)
    (htrim : trimSpaceChars line = List.replicate a '*' ++ w ++ List.replicate b '*') :
    ReplaceAllString [Atom.plus '*'] (List.replicate a '*' ++ w ++ List.replicate b '*') "*"
        = (if a = 0 then [] else ['*']) ++ w ++ (if b = 0 then [] else ['*'])
    ∧ globToRegexp (List.replicate a '*' ++ w ++ List.replicate b '*') = w
    ∧ translateLine line
        = .ok (some ("PROXY", ⟨"if(/".data ++ w ++ "/i.test(url)) return PROXY;".data⟩))
    ∧ (⟨"if(/".data ++ w ++ "/i.test(url)) return PROXY;".data⟩ : String) ∈ jscode := by
  obtain ⟨h1, h2, h3⟩ := translateLine_word_glob w hne hw a b
  have hns : ∀ c ∈ List.replicate a '*' ++ w ++ List.replicate b '*', isSpace c = false := by
    intro c hc
    rcases List.mem_append.mp hc with hc | hc
    · rcases List.mem_append.mp hc with hc | hc
      · rw [(List.mem_replicate.mp hc).2]; decide
      · exact isSpace_of_isWordChar c (hw c hc)
    · rw [(List.mem_replicate.mp hc).2]; decide
  have ht : translateLine line
      = .ok (some ("PROXY", ⟨"if(/".data ++ w ++ "/i.test(url)) return PROXY;".data⟩)) := by
    rw [translateLine_congr line (List.replicate a '*' ++ w ++ List.replicate b '*')
      (by rw [htrim, trimSpaceChars_id _ hns])]
    exact h3
  exact ⟨h1, h2, ht, pacRuleLines_emits content usercontent jscode hshort h line hline _ _ ht⟩

/-- Witness for amended C12: the lines `*ads*`, `**ads***` (with blanks around
it) and `ads` after a header line. -/
theorem generatePAC_word_glob_emitted_witness :
    shortLines (pacInput "[AutoProxy]\n*ads*\n **ads*** \nads" none) 0 = true
    ∧ pacRuleLines "[AutoProxy]\n*ads*\n **ads*** \nads" none
        = .ok ["if(/ads/i.test(url)) return PROXY;", "if(/ads/i.test(url)) return PROXY;",
               "if(/ads/i.test(url)) return PROXY;"]
    ∧ " **ads*** ".data
        ∈ (contentLines (pacInput "[AutoProxy]\n*ads*\n **ads*** \nads" none) []).tail
    ∧ "ads".data ≠ []
    ∧ (∀ c ∈ "ads".data, isWordChar c = true)
    ∧ trimSpaceChars " **ads*** ".data
        = List.replicate 2 '*' ++ "ads".data ++ List.replicate 3 '*'
    ∧ globToRegexp (List.replicate 2 '*' ++ "ads".data ++ List.replicate 3 '*') = "ads".data
    ∧ translateLine " **ads*** ".data
        = .ok (some ("PROXY",
            ⟨"if(/".data ++ "ads".data ++ "/i.test(url)) return PROXY;".data⟩)) :=
  have hw := generatePAC_word_glob_emitted "[AutoProxy]\n*ads*\n **ads*** \nads" none
    ["if(/ads/i.test(url)) return PROXY;", "if(/ads/i.test(url)) return PROXY;",
     "if(/ads/i.test(url)) return PROXY;"] (by decide) (by decide) " **ads*** ".data
    (by decide) "ads".data (by decide) (by decide) 2 3 (by decide)
  ⟨by decide, by decide, by decide, by decide, by decide, by decide, hw.2.1, hw.2.2.1⟩

end Spac
